import Mathlib

/-!
Verification of the hieuxyz_rpc client core.

Shallow embedding of the repository's TypeScript source:
* `src/hieuxyz/rpc/HieuxyzRPC.ts` — resolved-asset cache, FIFO eviction,
  expiry-aware renewal (`resolveImage`, `renewAssetIfNeeded`, `getExpiryTime`);
* `src/hieuxyz/rpc/RpcImage.ts` — the image reference variants;
* `src/hieuxyz/http/HTTPClient.ts` — the HTTP dispatcher (`execute`,
  `handleResponse`), header merging, and the gateway socket
  (`DiscordWebSocket`: `handleClose`, `shouldReconnect`, heartbeating,
  token validation).

JavaScript `Map` objects preserve insertion order: `set` on an existing key
updates the value in place, `set` on a fresh key appends, and iteration
(`keys().next().value`) starts from the earliest-inserted surviving key.
We model such a map as an association list in insertion order.
-/

namespace Hieuxyz

/-- Insertion-ordered string map, modelling a JavaScript `Map<string, string>`. -/
abbrev JMap := List (String × String)

/-- `Map.get`. -/
def jget (m : JMap) (k : String) : Option String :=
  (m.find? (fun p => p.1 == k)).map Prod.snd

/-- `Map.has`. -/
def jhas (m : JMap) (k : String) : Bool :=
  m.any (fun p => p.1 == k)

/-- `Map.set`: update in place when the key exists (insertion order kept),
otherwise append at the end. -/
def jset (m : JMap) (k v : String) : JMap :=
  if jhas m k then m.map (fun p => if p.1 == k then (k, v) else p)
  else m ++ [(k, v)]

/-- `Map.delete`. -/
def jdelete (m : JMap) (k : String) : JMap :=
  m.filter (fun p => p.1 != k)

/-- `Map.size`. -/
def jsize (m : JMap) : Nat := m.length

/-- `map.keys().next().value`: the earliest-inserted key, if any. -/
def joldestKey (m : JMap) : Option String :=
  m.head?.map Prod.fst

/-- Well-formedness maintained by the JS `Map` model: keys are pairwise
distinct (a JS `Map` never holds a key twice). -/
def JMapWF (m : JMap) : Prop := (m.map Prod.fst).Nodup

/-- JS `String.prototype.startsWith`: char-for-char prefix test. -/
def sstartsWith (s pre : String) : Bool := pre.data.isPrefixOf s.data

/-- One step of the JS `split` loop: at each position either the separator
matches (emit the accumulated segment, skip the separator) or one character
is consumed. The fuel is an upper bound on the number of steps; `jsSplit`
supplies one more than the string length, which is always enough. -/
def jsSplitGo (sep : List Char) : Nat → List Char → List Char → List (List Char)
  | _, [], acc => [acc.reverse]
  | 0, cs, acc => [acc.reverse ++ cs]
  | fuel + 1, c :: cs, acc =>
      if sep.isPrefixOf (c :: cs) then
        acc.reverse :: jsSplitGo sep fuel ((c :: cs).drop sep.length) []
      else jsSplitGo sep fuel cs (c :: acc)

/-- JS `String.prototype.split` with a nonempty string separator. -/
def jsSplit (s sep : String) : List String :=
  (jsSplitGo sep.data (s.data.length + 1) s.data []).map String.mk

/-- Image reference variants, from `src/hieuxyz/rpc/RpcImage.ts`
(`DiscordImage`, `ExternalImage`, `LocalImage`, `RawImage`) plus the
`ApplicationImage` variant (imported by `HieuxyzRPC.ts`; its class body is not
under `src/`, see `applicationImage` fields below). -/
inductive RpcImage where
  | discordImage (imageKey : String)
  | externalImage (url : String)
  | localImage (filePath fileName : String)
  | rawImage (assetKey : String)
  | applicationImage (assetName : String)
deriving DecidableEq, Repr

/-- `getCacheKey` of each variant. For `applicationImage` the class body is
missing from `src/`; modelled from the spec ("ApplicationAssetName(name)"
variant with a cache key derived from its variant and payload) and from the
`app_asset:` prefix handling in `HieuxyzRPC.resolveImage`. -/
def RpcImage.getCacheKey : RpcImage → String
  | .discordImage imageKey => "discord:" ++ imageKey
  | .externalImage url => "external:" ++ url
  | .localImage filePath _ => "local:" ++ filePath
  | .rawImage assetKey => "raw:" ++ assetKey
  | .applicationImage assetName => "app_asset:" ++ assetName

/-- Calls made to the REST image service (`src/hieuxyz/rpc/ImageService.ts`). -/
inductive ServiceCall where
  | externalCall (url : String)
  | uploadCall (filePath fileName : String)
  | renewCall (assetId : String)
  | fetchAssetsCall (applicationId : String)
deriving DecidableEq, Repr

/-- Pure oracle for the `ImageService` REST façade: each operation's reply.
`none` models the `undefined` returned on failure (every method of
`ImageService` catches its errors and returns `undefined`);
`fetchApplicationAssets` yields the (name, id) pairs of the asset list. -/
structure ImageServiceOracle where
  getExternalUrl : String → Option String
  uploadImage : String → String → Option String
  renewImage : String → Option String
  fetchApplicationAssets : String → List (String × String)

/-- `RpcImage.resolve` of each variant, returning the resolved key and the
service calls performed. `applicationImage` is modelled from the spec: its
resolve yields the `app_asset:`-prefixed key that `resolveImage` then routes
through the application-asset branch. -/
def RpcImage.resolveProc (svc : ImageServiceOracle) :
    RpcImage → Option String × List ServiceCall
  | .discordImage imageKey =>
      (some (if sstartsWith imageKey "mp:" then imageKey else "mp:" ++ imageKey), [])
  | .externalImage url => (svc.getExternalUrl url, [.externalCall url])
  | .localImage filePath fileName =>
      (svc.uploadImage filePath fileName, [.uploadCall filePath fileName])
  | .rawImage assetKey => (some assetKey, [])
  | .applicationImage assetName => (some ("app_asset:" ++ assetName), [])

/-- Value of a hexadecimal digit, as accepted by `parseInt` with radix 16. -/
def hexDigitVal (c : Char) : Option Nat :=
  if '0' ≤ c ∧ c ≤ '9' then some (c.toNat - 48)
  else if 'a' ≤ c ∧ c ≤ 'f' then some (c.toNat - 97 + 10)
  else if 'A' ≤ c ∧ c ≤ 'F' then some (c.toNat - 65 + 10)
  else none

/-- JavaScript `parseInt(s, 16)`: an optional `0x`/`0X` lead-in, then the
longest run of hexadecimal digits; `none` models `NaN` (no digit parsed).
Leading whitespace and a sign are not modelled: the `ex` query value this is
applied to is a plain hex numeral. -/
def parseIntHex (s : String) : Option Nat :=
  let cs := s.data
  let cs := if cs.take 2 = ['0', 'x'] ∨ cs.take 2 = ['0', 'X'] then cs.drop 2 else cs
  let ds := cs.takeWhile (fun c => (hexDigitVal c).isSome)
  if ds.isEmpty then none
  else some (ds.foldl (fun acc c => 16 * acc + ((hexDigitVal c).getD 0)) 0)

/-- The query string of a URL: the part after the first question mark, with
any fragment (after the first hash mark) removed first. Models the `search`
component of `new URL(...)`. -/
def queryString (url : String) : Option String :=
  let noFrag := (jsSplit url "#").headD url
  match jsSplit noFrag "?" with
  | _ :: q :: rest => some (String.intercalate "?" (q :: rest))
  | _ => none

/-- First value of the query parameter named `k`: models
`url.searchParams.get(k)`. Parameters are ampersand-separated; a value is
everything after the first equals sign (empty when there is none).
Percent-decoding is omitted: the `ex` expiry values are plain hex numerals. -/
def getQueryParam (url : String) (k : String) : Option String :=
  match queryString url with
  | none => none
  | some q =>
      ((jsSplit q "&").filterMap (fun pat =>
        match jsSplit pat "=" with
        | [] => none
        | key :: rest =>
            if key = k then some (String.intercalate "=" rest) else none)).head?

/-- `HieuxyzRPC.getExpiryTime` (HieuxyzRPC.ts lines 409-423): for a key with
the `mp:attachments` prefix, read the `ex` query parameter of the underlying
CDN URL and decode it as hex-encoded Unix seconds, scaled to milliseconds.
`none` covers both the `null` returns and the `NaN` product of an unparsable
value (whose only use, a JS truthiness-guarded comparison, fails like
`null`). An empty parameter value is falsy in JS, hence `none`. -/
def getExpiryTime (assetKey : String) : Option Nat :=
  if sstartsWith assetKey "mp:attachments" then
    let urlPart := assetKey.drop 3
    match getQueryParam ("https://cdn.discordapp.com/" ++ urlPart) "ex" with
    | some ts => if ts = "" then none else (parseIntHex ts).map (· * 1000)
    | none => none
  else none

/-- Result of the renewal check: the returned key, the resolved-asset cache
afterwards, and the renew calls issued. -/
structure RenewOutcome where
  result : String
  cache : JMap
  calls : List ServiceCall
deriving DecidableEq, Repr

/-- `HieuxyzRPC.renewAssetIfNeeded` (HieuxyzRPC.ts lines 425-438). The JS
guard `expiryTimeMs && expiryTimeMs < Date.now() + 3600000` requires a truthy
(nonzero, non-`NaN`) expiry below one hour from now. On renewal success, the
cache entry is overwritten and the fresh key returned; on failure the stale
key is returned with the cache untouched. The asset id is
`assetKey.split('mp:attachments/')[1]` (empty string standing in for the
`undefined` of a key without that separator). -/
def renewAssetIfNeeded (svc : ImageServiceOracle) (now : Nat) (cache : JMap)
    (cacheKey assetKey : String) : RenewOutcome :=
  match getExpiryTime assetKey with
  | some expiryTimeMs =>
      if expiryTimeMs ≠ 0 ∧ expiryTimeMs < now + 3600000 then
        let assetId := ((jsSplit assetKey "mp:attachments/").drop 1).headD ""
        match svc.renewImage assetId with
        | some newAsset => ⟨newAsset, jset cache cacheKey newAsset, [.renewCall assetId]⟩
        | none => ⟨assetKey, cache, [.renewCall assetId]⟩
      else ⟨assetKey, cache, []⟩
  | none => ⟨assetKey, cache, []⟩

/-- `HieuxyzRPC.MAX_CACHE_SIZE`. -/
def MAX_CACHE_SIZE : Nat := 50

/-- The eviction step of `resolveImage` (HieuxyzRPC.ts lines 494-499): when
the cache is at capacity and the key is absent, delete the earliest-inserted
key. The inner `if (oldestKey)` is a JS truthiness test, false for the empty
string as well as for `undefined`. -/
def evictIfFull (cache : JMap) (cacheKey : String) : JMap :=
  if MAX_CACHE_SIZE ≤ jsize cache ∧ jhas cache cacheKey = false then
    match joldestKey cache with
    | some oldestKey => if oldestKey ≠ "" then jdelete cache oldestKey else cache
    | none => cache
  else cache

/-- Mutable state of a `HieuxyzRPC` instance relevant to image resolution. -/
structure RpcState where
  resolvedAssetsCache : JMap
  applicationAssetsCache : List (String × JMap)
  applicationId : String
deriving DecidableEq, Repr

/-- Lookup in the application-assets cache (`Map<ApplicationID, Map<...>>`). -/
def alookup (m : List (String × JMap)) (k : String) : Option JMap :=
  (m.find? (fun p => p.1 == k)).map Prod.snd

/-- `HieuxyzRPC.ensureAppAssetsLoaded` (HieuxyzRPC.ts lines 466-477): fetch
and cache the name-to-id map for the current application id, once. -/
def ensureAppAssetsLoaded (svc : ImageServiceOracle) (st : RpcState) :
    RpcState × List ServiceCall :=
  match alookup st.applicationAssetsCache st.applicationId with
  | some _ => (st, [])
  | none =>
      let assets := svc.fetchApplicationAssets st.applicationId
      let assetMap := assets.foldl (fun m a => jset m a.1 a.2) []
      ({ st with applicationAssetsCache :=
          st.applicationAssetsCache ++ [(st.applicationId, assetMap)] },
        [.fetchAssetsCall st.applicationId])

/-- Result of one `resolveImage` call: resolved key (or absent), the state
afterwards, the service calls made, and how many times the reference's own
resolve procedure (`image.resolve`) was invoked. -/
structure ResolveOutcome where
  result : Option String
  state : RpcState
  calls : List ServiceCall
  procCalls : Nat
deriving DecidableEq, Repr

/-- `HieuxyzRPC.resolveImage` (HieuxyzRPC.ts lines 479-516). The fuel bounds
the `app_asset:`-result recursion (`return this.resolveImage(image)`), which
the source leaves unbounded; all theorems hold for every fuel value. -/
def resolveImage (svc : ImageServiceOracle) (now : Nat) :
    Nat → RpcState → Option RpcImage → ResolveOutcome
  | _, st, none => ⟨none, st, [], 0⟩
  | 0, st, some _ => ⟨none, st, [], 0⟩
  | fuel + 1, st, some image =>
    let cacheKey := image.getCacheKey
    if sstartsWith cacheKey "app_asset:" then
      let load := ensureAppAssetsLoaded svc st
      let assetName := cacheKey.drop ("app_asset:".length)
      match (alookup load.1.applicationAssetsCache load.1.applicationId).bind
          (fun m => jget m assetName) with
      | none => ⟨none, load.1, load.2, 0⟩
      | some assetId => ⟨some assetId, load.1, load.2, 0⟩
    else
      let cache := evictIfFull st.resolvedAssetsCache cacheKey
      match jget cache cacheKey with
      | some cachedAsset =>
          let r := renewAssetIfNeeded svc now cache cacheKey cachedAsset
          ⟨some r.result, { st with resolvedAssetsCache := r.cache }, r.calls, 0⟩
      | none =>
          let pr := image.resolveProc svc
          match pr.1 with
          | some resolvedAsset =>
              if sstartsWith resolvedAsset "app_asset:" then
                let rc := resolveImage svc now fuel
                  { st with resolvedAssetsCache := cache } (some image)
                ⟨rc.result, rc.state, pr.2 ++ rc.calls, 1 + rc.procCalls⟩
              else
                ⟨some resolvedAsset,
                  { st with resolvedAssetsCache := jset cache cacheKey resolvedAsset },
                  pr.2, 1⟩
          | none => ⟨none, { st with resolvedAssetsCache := cache }, pr.2, 1⟩

/-- A sequence of `resolveImage` calls, threading the state. -/
def runResolves (svc : ImageServiceOracle) (now fuel : Nat) :
    RpcState → List (Option RpcImage) → RpcState
  | st, [] => st
  | st, i :: rest => runResolves svc now fuel (resolveImage svc now fuel st i).state rest

/-- A fresh `HieuxyzRPC` instance: both caches empty. -/
def initialRpcState (appId : String) : RpcState := ⟨[], [], appId⟩

/-! ## Gateway socket (`DiscordWebSocket` in `src/hieuxyz/http/HTTPClient.ts`) -/

/-- `DiscordWebSocketOptions`; `properties` is irrelevant to the claims.
Optional fields mirror the `??` defaulting in the constructor. -/
structure DiscordWebSocketOptions where
  alwaysReconnect : Option Bool
  connectionTimeout : Option Nat
deriving DecidableEq, Repr

/-- The `DiscordWebSocket` fields the close/reconnect claims range over. -/
structure DWSState where
  token : String
  sequence : Option Nat
  sessionId : Option String
  resumeGatewayUrl : Option String
  alwaysReconnect : Bool
  connectionTimeout : Nat
  isReconnecting : Bool
  permanentClose : Bool
deriving DecidableEq, Repr

/-- `DiscordWebSocket.isTokenValid`: `token.split('.').length >= 3`. The JS
`split` with a single-character separator splits the character sequence at
every separator occurrence (an empty string yields one empty segment), which
is exactly `List.splitOn` on the string's characters. -/
def isTokenValid (token : String) : Bool :=
  3 ≤ (token.data.splitOn '.').length

/-- The `DiscordWebSocket` constructor: throws `Invalid token provided.` on an
invalid token, otherwise stores the token and the defaulted options
(`alwaysReconnect ?? false`, `connectionTimeout ?? 30000`); session fields
start out absent. -/
def mkDiscordWebSocket (token : String) (options : DiscordWebSocketOptions) :
    Except String DWSState :=
  if !(isTokenValid token) then .error "Invalid token provided."
  else .ok
    { token := token
      sequence := none
      sessionId := none
      resumeGatewayUrl := none
      alwaysReconnect := options.alwaysReconnect.getD false
      connectionTimeout := options.connectionTimeout.getD 30000
      isReconnecting := false
      permanentClose := false }

/-- `DiscordWebSocket.shouldReconnect` (lines 495-505): the fatal codes never
reconnect; otherwise `alwaysReconnect` forces a reconnect; otherwise any code
except a normal closure (1000) reconnects. -/
def fatalErrorCodes : List Nat := [4004, 4010, 4011, 4013, 4014]

/-- See `fatalErrorCodes`. -/
def shouldReconnect (st : DWSState) (code : Nat) : Bool :=
  if code ∈ fatalErrorCodes then false
  else if st.alwaysReconnect then true
  else code != 1000

/-- Result of `handleClose`: the updated fields and whether a reconnect
(`setTimeout(() => this.connect(), 5000)`) was scheduled. -/
structure CloseOutcome where
  state : DWSState
  reconnectScheduled : Bool
deriving DecidableEq, Repr

/-- `DiscordWebSocket.handleClose` (lines 299-322): stop heartbeating
(modelled separately, see `hbStep`), clear the in-progress flag, clear the
session fields on code 4004 or 4999, then either return without reconnecting
(permanent close), or schedule a reconnect exactly when `shouldReconnect`
says so. -/
def handleClose (st : DWSState) (code : Nat) : CloseOutcome :=
  let st1 := { st with isReconnecting := false }
  let st2 := if code = 4004 ∨ code = 4999 then
      { st1 with sessionId := none, sequence := none, resumeGatewayUrl := none }
    else st1
  if st2.permanentClose then ⟨st2, false⟩
  else ⟨st2, shouldReconnect st2 code⟩

/-- Events that drive the heartbeat logic installed by
`DiscordWebSocket.startHeartbeating` (lines 396-421): the one-shot jittered
initial timeout firing, an interval tick, a HEARTBEAT_ACK arriving
(`onMessage`, line 370-373), and the socket closing (whose handler runs
`cleanupHeartbeat`). -/
inductive HBEvent where
  | initialFire
  | tick
  | ackReceived
  | socketClosed
deriving DecidableEq, Repr

/-- Heartbeat-related state. `beatsSent` and `beatsSinceAck` are ghost
counters: total heartbeats sent, and heartbeats sent since the last ack. -/
structure HeartbeatState where
  lastHeartbeatAck : Bool
  wsOpen : Bool
  terminated : Bool
  intervalActive : Bool
  initialFired : Bool
  beatsSent : Nat
  beatsSinceAck : Nat
deriving DecidableEq, Repr

/-- State right after `startHeartbeating` runs: the ack flag is reset to
true, the initial jittered timeout is pending, and no interval exists yet
(the `setInterval` is only created inside the initial timeout's callback). -/
def startHeartbeatingState (wsOpen : Bool) : HeartbeatState :=
  ⟨true, wsOpen, false, false, false, 0, 0⟩

/-- One step of the heartbeat logic, transcribing `startHeartbeating`:
* the initial timeout sends a heartbeat if the socket is open — without
  touching `lastHeartbeatAck` — and installs the interval;
* an interval tick first terminates the socket if the previous ack is still
  missing, else cleans up if the socket is not open, else clears the ack
  flag and sends a heartbeat;
* a HEARTBEAT_ACK sets the ack flag;
* a socket close stops the interval (`cleanupHeartbeat` in `handleClose`). -/
def hbStep (st : HeartbeatState) : HBEvent → HeartbeatState
  | .initialFire =>
      if st.initialFired then st
      else
        let inc := if st.wsOpen then 1 else 0
        { st with
            initialFired := true,
            intervalActive := true,
            beatsSent := st.beatsSent + inc,
            beatsSinceAck := st.beatsSinceAck + inc }
  | .tick =>
      if st.intervalActive = false then st
      else if st.lastHeartbeatAck = false then
        { st with terminated := true, wsOpen := false }
      else if st.wsOpen = false then
        { st with intervalActive := false }
      else
        { st with
            lastHeartbeatAck := false,
            beatsSent := st.beatsSent + 1,
            beatsSinceAck := st.beatsSinceAck + 1 }
  | .ackReceived => { st with lastHeartbeatAck := true, beatsSinceAck := 0 }
  | .socketClosed => { st with wsOpen := false, intervalActive := false }

/-- Run a sequence of heartbeat events. -/
def hbRun (st : HeartbeatState) (events : List HBEvent) : HeartbeatState :=
  events.foldl hbStep st

/-! ## HTTP dispatcher (`HTTPClient` in `src/hieuxyz/http/HTTPClient.ts`) -/

/-- What the wire returns for one sent request: a response with the fields
`handleResponse` reads (`status`, the parsed body, `retry_after` in seconds,
`global`), or a transport-level failure with no response. -/
inductive HttpResponse where
  | reply (status : Nat) (body : String) (retryAfter : ℚ) (isGlobal : Bool)
  | netError
deriving DecidableEq, Repr

/-- How one `execute` call settles: resolve with the body (2xx), reject with
a `DiscordAPIError` (any non-retried non-2xx status, line 135), throw an
`HTTPError` named `NetworkError` after transport retries are exhausted
(line 106), or run out of scripted responses (a model artifact: the oracle
list was shorter than the execution). -/
inductive HttpResult where
  | success (body : String)
  | apiError (status : Nat)
  | networkError
  | noResponse
deriving DecidableEq, Repr

/-- Dispatcher state at entry to `execute`: the current clock, the
process-wide `globalReset` timestamp, and the request's retry counter
(milliseconds since an arbitrary origin; rationals, since `retry_after`
arrives in fractional seconds and is scaled by 1000). -/
structure HttpState where
  time : ℚ
  globalReset : ℚ
  retries : Nat
deriving DecidableEq, Repr

/-- Result of running `execute` against a list of scripted responses: the
settled result, final clock and `globalReset`, and the instants at which the
request was (re)sent. -/
structure ExecOutcome where
  result : HttpResult
  time : ℚ
  globalReset : ℚ
  sends : List ℚ
deriving DecidableEq, Repr

/-- The moment a request is actually sent: if the global rate-limit
timestamp lies in the future, `execute` first sleeps until it passes
(lines 64-68). -/
def sendTime (st : HttpState) : ℚ := max st.time st.globalReset

/-- `HTTPClient.execute` together with `handleResponse` (lines 63-136), one
scripted response consumed per send; requests and responses take no model
time. Status 429: sleep `retry_after * 1000`, setting `globalReset` first
when the limit is global, then re-execute, without touching the retry
counter. Status 5xx with retries left: increment the counter and re-execute
after `1000 * retries²`. A transport error with retries left: increment and
re-execute after `1000 * retries`. 2xx resolves with the body; everything
else — including a 5xx with retries exhausted — rejects with
`DiscordAPIError`. -/
def execute : HttpState → List HttpResponse → ExecOutcome
  | st, [] => ⟨.noResponse, sendTime st, st.globalReset, [sendTime st]⟩
  | st, .netError :: rest =>
      let t := sendTime st
      let r := st.retries + 1
      if r < 3 then
        let o := execute ⟨t + 1000 * (r : ℚ), st.globalReset, r⟩ rest
        ⟨o.result, o.time, o.globalReset, t :: o.sends⟩
      else ⟨.networkError, t, st.globalReset, [t]⟩
  | st, .reply status body retryAfter isGlobal :: rest =>
      let t := sendTime st
      if status = 429 then
        let retryMs := retryAfter * 1000
        let gr := if isGlobal then t + retryMs else st.globalReset
        let o := execute ⟨t + retryMs, gr, st.retries⟩ rest
        ⟨o.result, o.time, o.globalReset, t :: o.sends⟩
      else if 500 ≤ status ∧ status < 600 ∧ st.retries + 1 < 3 then
        let r := st.retries + 1
        let o := execute ⟨t + 1000 * ((r : ℚ) ^ 2), st.globalReset, r⟩ rest
        ⟨o.result, o.time, o.globalReset, t :: o.sends⟩
      else if 200 ≤ status ∧ status < 300 then ⟨.success body, t, st.globalReset, [t]⟩
      else ⟨.apiError status, t, st.globalReset, [t]⟩

/-- Header maps, in JS object key order. -/
abbrev Headers := List (String × String)

/-- Header lookup. -/
def hlookup (h : Headers) (k : String) : Option String :=
  (h.find? (fun p => p.1 == k)).map Prod.snd

/-- JS `{...a, ...b}` and `Object.assign(a, b)`: keys of `a` keep their
position but take the value from `b` when `b` also has the key; keys only in
`b` are appended in `b`'s order. `b` wins on conflicts. -/
def spreadMerge (a b : Headers) : Headers :=
  a.map (fun p => match hlookup b p.1 with | some v => (p.1, v) | none => p) ++
    b.filter (fun p => !(a.any (fun q => q.1 == p.1)))

/-- The header computation of `execute` (lines 70-83): start from
`{...this.getHeaders(), ...request.headers}`, then, for a multipart request,
`Object.assign(headers, formData.getHeaders())` — the computed multipart
boundary headers are merged in last. -/
def computeRequestHeaders (sessionHeaders requestHeaders formHeaders : Headers)
    (isMultipart : Bool) : Headers :=
  let headers := spreadMerge sessionHeaders requestHeaders
  if isMultipart then spreadMerge headers formHeaders else headers

/-- First-defined of two optional values: `a` unless it is absent, else `b`. -/
def ofirst (a b : Option String) : Option String :=
  match a with
  | some v => some v
  | none => b

/-- Keys of a `JMap`, in insertion order. -/
def jkeys (m : JMap) : List String := m.map Prod.fst

/-- Cache well-formedness for the resolved-asset cache: established for every
state reachable by `resolveImage` from a fresh instance — keys are nonempty
(each `getCacheKey` carries a nonempty variant prefix) and pairwise distinct
(the JS `Map` invariant). -/
def CacheWF (m : JMap) : Prop := (∀ p ∈ m, p.1 ≠ "") ∧ JMapWF m

instance (m : JMap) : Decidable (CacheWF m) := by
  unfold CacheWF JMapWF; infer_instance

/-! ## Concrete instances used by the closed-form theorems -/

/-- An image service whose upload/proxy/renew endpoints all fail. -/
def svcFailing : ImageServiceOracle :=
  ⟨fun _ => none, fun _ _ => none, fun _ => none, fun _ => []⟩

/-- An image service that resolves an external URL to a fixed media-proxy key. -/
def svcExternalOk : ImageServiceOracle :=
  ⟨fun _ => some "mp:external/e", fun _ _ => none, fun _ => none, fun _ => []⟩

/-- An image service whose renew endpoint yields a fixed fresh key. -/
def svcRenewOk : ImageServiceOracle :=
  ⟨fun _ => none, fun _ _ => none, fun _ => some "mp:attachments/renewed", fun _ => []⟩

/-- A resolved-asset cache filled to capacity with distinct keys k0..k49. -/
def fullCache : JMap :=
  (List.range MAX_CACHE_SIZE).map (fun i => ("k" ++ toString i, "v"))

/-- `fullCache` without its earliest-inserted entry. -/
def fullCacheRest : JMap := fullCache.tail

/-- A socket state with the permanent-close flag set (the owner called
`close(force = true)`) while `alwaysReconnect` is on and a session exists. -/
def c2State : DWSState :=
  ⟨"t", some 42, some "sid", some "url", true, 30000, false, true⟩

/-- A socket state with `alwaysReconnect = false`, a live session, and no
permanent close. -/
def c2aState : DWSState :=
  ⟨"t", some 1, some "s", some "u", false, 30000, false, false⟩

/-- A socket state with `alwaysReconnect = true`, a live session, and no
permanent close. -/
def c2bState : DWSState :=
  ⟨"t", some 1, some "s", some "u", true, 30000, false, false⟩

/-- An RPC state holding one cached external image whose resolved key embeds
a zero expiry (`ex=0`). -/
def c7State : RpcState := ⟨[("external:u", "mp:attachments/x?ex=0")], [], "app"⟩

/-- An RPC state holding one cached external image whose resolved key embeds
an expiry of 2 (hex) Unix seconds — long past, so within the renewal hour. -/
def c7bState : RpcState := ⟨[("external:u", "mp:attachments/a/b.png?ex=2")], [], "app"⟩

/-- A heartbeat state whose previous heartbeat is still unacknowledged when
the interval timer fires. -/
def c3St : HeartbeatState := ⟨false, true, false, true, true, 2, 2⟩

/-- Inductive invariant of the heartbeat machine: before the initial timeout
fires no interval exists, the ack flag is set and nothing is outstanding;
at most one heartbeat is outstanding while the ack flag is set, and at most
two ever go unacknowledged (the flag was only skipped by the initial send). -/
def HBInv (st : HeartbeatState) : Prop :=
  (st.initialFired = false →
    st.intervalActive = false ∧ st.lastHeartbeatAck = true ∧ st.beatsSinceAck = 0) ∧
  (st.lastHeartbeatAck = true → st.beatsSinceAck ≤ 1) ∧
  (st.lastHeartbeatAck = false → st.beatsSinceAck ≤ 2)

/-- All scripted `retry_after` values are nonnegative, as the server-supplied
field always is. -/
def NonnegRetryAfter : List HttpResponse → Prop
  | [] => True
  | .reply _ _ ra _ :: rest => 0 ≤ ra ∧ NonnegRetryAfter rest
  | .netError :: rest => NonnegRetryAfter rest

/-! ## Lemmas about the JS `Map` model -/

theorem jget_eq_none_of_not_jhas (m : JMap) (k : String) (h : jhas m k = false) :
    jget m k = none := by
  induction m with
  | nil => rfl
  | cons p rest ih =>
      simp only [jhas, List.any_cons, Bool.or_eq_false_iff] at h
      simp only [jget, List.find?_cons, h.1]
      exact ih h.2

theorem jhas_of_jget (m : JMap) (k : String) (v : String) (h : jget m k = some v) :
    jhas m k = true := by
  by_contra hc
  rw [jget_eq_none_of_not_jhas m k (Bool.eq_false_iff.mpr hc)] at h
  exact Option.noConfusion h

theorem jhas_map_update (m : JMap) (k v : String) :
    jhas (m.map (fun p => if p.1 == k then (k, v) else p)) k = jhas m k := by
  induction m with
  | nil => rfl
  | cons p rest ih =>
      simp only [jhas] at ih
      cases hp : (p.1 == k) with
      | true =>
          have heq : (if (p.1 == k) = true then (k, v) else p) = (k, v) := if_pos hp
          simp only [List.map_cons, jhas, List.any_cons, heq, hp]
          simp
      | false =>
          have heq : (if (p.1 == k) = true then (k, v) else p) = p := by
            rw [if_neg]
            simp [hp]
          simp only [List.map_cons, jhas, List.any_cons, heq]
          simp only [hp, Bool.false_or]
          exact ih

theorem jget_map_update (m : JMap) (k v : String) (h : jhas m k = true) :
    jget (m.map (fun p => if p.1 == k then (k, v) else p)) k = some v := by
  induction m with
  | nil => simp [jhas] at h
  | cons p rest ih =>
      cases hp : (p.1 == k) with
      | true =>
          have heq : (if (p.1 == k) = true then (k, v) else p) = (k, v) := if_pos hp
          simp only [List.map_cons, heq]
          simp only [jget, List.find?_cons, beq_self_eq_true]
          rfl
      | false =>
          have heq : (if (p.1 == k) = true then (k, v) else p) = p := by
            rw [if_neg]
            simp [hp]
          have hrest : jhas rest k = true := by
            simp only [jhas, List.any_cons, hp, Bool.false_or] at h
            exact h
          have ihr := ih hrest
          simp only [jget] at ihr ⊢
          simp only [List.map_cons, heq]
          rw [List.find?_cons, hp]
          exact ihr

theorem jget_append_fresh (m : JMap) (k v : String) (h : jhas m k = false) :
    jget (m ++ [(k, v)]) k = some v := by
  induction m with
  | nil => simp [jget]
  | cons p rest ih =>
      have hp : (p.1 == k) = false := by
        simp only [jhas, List.any_cons, Bool.or_eq_false_iff] at h
        exact h.1
      have hrest : jhas rest k = false := by
        simp only [jhas, List.any_cons, Bool.or_eq_false_iff] at h
        exact h.2
      simpa [jget, List.find?_cons, hp] using ih hrest

theorem jhas_jset_self (m : JMap) (k v : String) : jhas (jset m k v) k = true := by
  unfold jset
  split
  · rw [jhas_map_update]
    assumption
  · simp [jhas, List.any_append]

theorem jget_jset_self (m : JMap) (k v : String) : jget (jset m k v) k = some v := by
  unfold jset
  split
  · exact jget_map_update m k v (by assumption)
  · rename_i h
    exact jget_append_fresh m k v (Bool.eq_false_iff.mpr h)

theorem jkeys_jset_of_jhas (m : JMap) (k v : String) (h : jhas m k = true) :
    jkeys (jset m k v) = jkeys m := by
  unfold jset
  simp only [h, if_true, jkeys, List.map_map]
  apply List.map_congr_left
  intro p _
  simp only [Function.comp_apply]
  by_cases hp : p.1 == k
  · simp only [hp, if_true]
    exact (eq_of_beq hp).symm
  · simp [hp]

theorem jkeys_jset_of_not_jhas (m : JMap) (k v : String) (h : jhas m k = false) :
    jkeys (jset m k v) = jkeys m ++ [k] := by
  unfold jset
  simp [h, jkeys]

theorem jsize_jset_of_jhas (m : JMap) (k v : String) (h : jhas m k = true) :
    jsize (jset m k v) = jsize m := by
  have := jkeys_jset_of_jhas m k v h
  have h1 : (jkeys (jset m k v)).length = (jkeys m).length := by rw [this]
  simpa [jkeys, jsize] using h1

theorem jsize_jset_of_not_jhas (m : JMap) (k v : String) (h : jhas m k = false) :
    jsize (jset m k v) = jsize m + 1 := by
  have := jkeys_jset_of_not_jhas m k v h
  have h1 : (jkeys (jset m k v)).length = (jkeys m).length + 1 := by
    rw [this]; simp
  simpa [jkeys, jsize] using h1

theorem jhas_jdelete_of_not (m : JMap) (k k2 : String) (h : jhas m k2 = false) :
    jhas (jdelete m k) k2 = false := by
  unfold jdelete
  simp only [jhas, List.any_eq_false] at h ⊢
  intro p hp
  exact h p (List.mem_of_mem_filter hp)

theorem jsize_jdelete_le (m : JMap) (k : String) : jsize (jdelete m k) ≤ jsize m :=
  List.length_filter_le _ m

theorem jdelete_cons_self (k : String) (v : String) (rest : JMap)
    (h : jhas rest k = false) : jdelete ((k, v) :: rest) k = rest := by
  unfold jdelete
  rw [List.filter_cons]
  rw [if_neg (by simp)]
  rw [List.filter_eq_self]
  intro p hp
  simp only [jhas, List.any_eq_false] at h
  have := h p hp
  simpa [bne] using this

theorem cacheWF_keys_nonempty (m : JMap) (h : CacheWF m) :
    ∀ p ∈ m, p.1 ≠ "" := h.1

theorem cacheWF_jdelete (m : JMap) (k : String) (h : CacheWF m) :
    CacheWF (jdelete m k) := by
  constructor
  · intro p hp
    exact h.1 p (List.mem_of_mem_filter hp)
  · exact List.Nodup.sublist (List.Sublist.map Prod.fst (List.filter_sublist m)) h.2

theorem cacheWF_jset (m : JMap) (k v : String) (h : CacheWF m) (hk : k ≠ "") :
    CacheWF (jset m k v) := by
  by_cases hh : jhas m k
  · constructor
    · intro p hp
      unfold jset at hp
      rw [if_pos hh] at hp
      rcases List.mem_map.mp hp with ⟨q, hq, hfq⟩
      by_cases hq1 : (q.1 == k) = true
      · rw [if_pos hq1] at hfq
        rw [← hfq]
        exact hk
      · rw [if_neg hq1] at hfq
        rw [← hfq]
        exact h.1 q hq
    · have hkeys := jkeys_jset_of_jhas m k v hh
      unfold JMapWF
      rw [show (jset m k v).map Prod.fst = jkeys (jset m k v) from rfl, hkeys]
      exact h.2
  · have hh2 : jhas m k = false := Bool.eq_false_iff.mpr hh
    constructor
    · intro p hp
      unfold jset at hp
      rw [if_neg hh] at hp
      rcases List.mem_append.mp hp with hp | hp
      · exact h.1 p hp
      · rw [List.mem_singleton.mp hp]
        exact hk
    · have hkeys := jkeys_jset_of_not_jhas m k v hh2
      unfold JMapWF
      rw [show (jset m k v).map Prod.fst = jkeys (jset m k v) from rfl, hkeys]
      rw [List.nodup_append]
      refine ⟨h.2, List.nodup_singleton k, ?_⟩
      intro a ha hb
      rw [List.mem_singleton] at hb
      subst hb
      simp only [jhas, List.any_eq_false] at hh2
      rcases List.mem_map.mp ha with ⟨q, hq, hfq⟩
      have := hh2 q hq
      rw [hfq] at this
      simp at this

theorem cacheWF_evictIfFull (m : JMap) (k : String) (h : CacheWF m) :
    CacheWF (evictIfFull m k) := by
  unfold evictIfFull
  split
  · match hm : joldestKey m with
    | some ok =>
        simp only
        split
        · exact cacheWF_jdelete m ok h
        · exact h
    | none => simp only; exact h
  · exact h

theorem jhas_evictIfFull_of_not (m : JMap) (k : String) (h : jhas m k = false) :
    jhas (evictIfFull m k) k = false := by
  unfold evictIfFull
  split
  · match hm : joldestKey m with
    | some ok =>
        simp only
        split
        · exact jhas_jdelete_of_not m ok k h
        · exact h
    | none => simp only; exact h
  · exact h

theorem evictIfFull_of_jhas (m : JMap) (k : String) (h : jhas m k = true) :
    evictIfFull m k = m := by
  unfold evictIfFull
  rw [if_neg]
  intro hc
  rw [h] at hc
  exact Bool.noConfusion hc.2

theorem jsize_evictIfFull_le (m : JMap) (k : String) :
    jsize (evictIfFull m k) ≤ jsize m := by
  unfold evictIfFull
  split
  · match hm : joldestKey m with
    | some ok =>
        simp only
        split
        · exact jsize_jdelete_le m ok
        · exact le_refl _
    | none => simp only; exact le_refl _
  · exact le_refl _

theorem evictIfFull_full (k0 v0 : String) (rest : JMap) (k : String)
    (hWF : CacheWF ((k0, v0) :: rest))
    (hfull : MAX_CACHE_SIZE ≤ jsize ((k0, v0) :: rest))
    (h : jhas ((k0, v0) :: rest) k = false) :
    evictIfFull ((k0, v0) :: rest) k = rest := by
  have hk0 : k0 ≠ "" := hWF.1 (k0, v0) (List.mem_cons_self _ _)
  have hrest : jhas rest k0 = false := by
    have hnd := hWF.2
    simp only [JMapWF, List.map_cons, List.nodup_cons] at hnd
    simp only [jhas, List.any_eq_false]
    intro p hp
    intro hc
    exact hnd.1 (List.mem_map.mpr ⟨p, hp, (eq_of_beq hc)⟩)
  unfold evictIfFull
  rw [if_pos ⟨hfull, h⟩]
  show (if k0 ≠ "" then jdelete ((k0, v0) :: rest) k0 else (k0, v0) :: rest) = rest
  rw [if_pos hk0]
  exact jdelete_cons_self k0 v0 rest hrest

/-! ## C9 — constructor token validation -/

/-- C9: the `DiscordWebSocket` constructor throws `Invalid token provided.`
exactly when the token, split on dots, yields fewer than 3 segments; with at
least 3 segments construction succeeds and stores the token unchanged
(alongside the defaulted options and empty session fields). -/
theorem dws_constructor_token_validation (token : String)
    (options : DiscordWebSocketOptions) :
    ((token.data.splitOn '.').length < 3 →
      mkDiscordWebSocket token options = .error "Invalid token provided.") ∧
    (3 ≤ (token.data.splitOn '.').length →
      mkDiscordWebSocket token options = .ok
        { token := token
          sequence := none
          sessionId := none
          resumeGatewayUrl := none
          alwaysReconnect := options.alwaysReconnect.getD false
          connectionTimeout := options.connectionTimeout.getD 30000
          isReconnecting := false
          permanentClose := false }) := by
  constructor
  · intro h
    have hv : isTokenValid token = false := by
      unfold isTokenValid
      simp only [decide_eq_false_iff_not]
      omega
    simp [mkDiscordWebSocket, hv]
  · intro h
    have hv : isTokenValid token = true := by
      unfold isTokenValid
      simp only [decide_eq_true_eq]
      omega
    simp [mkDiscordWebSocket, hv]

/-- C9 witness: a three-segment token constructs and stores the token; a
segmentless token throws. -/
theorem dws_constructor_token_validation_witness :
    (3 ≤ ("a.b.c".data.splitOn '.').length ∧
      mkDiscordWebSocket "a.b.c" ⟨none, none⟩ = .ok
        { token := "a.b.c"
          sequence := none
          sessionId := none
          resumeGatewayUrl := none
          alwaysReconnect := false
          connectionTimeout := 30000
          isReconnecting := false
          permanentClose := false }) ∧
    (("x".data.splitOn '.').length < 3 ∧
      mkDiscordWebSocket "x" ⟨none, none⟩ = .error "Invalid token provided.") :=
  ⟨⟨by decide, (dws_constructor_token_validation "a.b.c" ⟨none, none⟩).2 (by decide)⟩,
    ⟨by decide, (dws_constructor_token_validation "x" ⟨none, none⟩).1 (by decide)⟩⟩

/-! ## C2 — close-code classification -/

/-- C2 (counterexample): the claim also asserts a reconnect for close code
1000 with `alwaysReconnect = true`, but when the permanent-close flag is set
(`close(force = true)` ends in a code-1000 close of the open socket),
`handleClose` schedules no reconnect. -/
theorem handleClose_counterexample :
    c2State.alwaysReconnect = true ∧
    (handleClose c2State 1000).reconnectScheduled = false := by decide

/-- C2 (amended): on close code 4004 with `alwaysReconnect = false` no
reconnect is scheduled and the session fields are cleared; on close code
1000 with `alwaysReconnect = true`, *provided the permanent-close flag is
not set*, a reconnect is scheduled and the session fields are preserved. -/
theorem handleClose_classification (st : DWSState) :
    (st.alwaysReconnect = false →
      (handleClose st 4004).reconnectScheduled = false ∧
      (handleClose st 4004).state.sessionId = none ∧
      (handleClose st 4004).state.sequence = none ∧
      (handleClose st 4004).state.resumeGatewayUrl = none) ∧
    (st.alwaysReconnect = true → st.permanentClose = false →
      (handleClose st 1000).reconnectScheduled = true ∧
      (handleClose st 1000).state.sessionId = st.sessionId ∧
      (handleClose st 1000).state.sequence = st.sequence ∧
      (handleClose st 1000).state.resumeGatewayUrl = st.resumeGatewayUrl) := by
  constructor
  · intro _
    by_cases hpc : st.permanentClose = true <;>
      simp [handleClose, shouldReconnect, fatalErrorCodes, hpc]
  · intro ha hp
    simp [handleClose, shouldReconnect, fatalErrorCodes, ha, hp]

/-- C2 witness: both halves at concrete states carrying a session. -/
theorem handleClose_classification_witness :
    ((handleClose c2aState 4004).reconnectScheduled = false ∧
      (handleClose c2aState 4004).state.sessionId = none ∧
      (handleClose c2aState 4004).state.sequence = none ∧
      (handleClose c2aState 4004).state.resumeGatewayUrl = none) ∧
    ((handleClose c2bState 1000).reconnectScheduled = true ∧
      (handleClose c2bState 1000).state.sessionId = c2bState.sessionId ∧
      (handleClose c2bState 1000).state.sequence = c2bState.sequence ∧
      (handleClose c2bState 1000).state.resumeGatewayUrl = c2bState.resumeGatewayUrl) :=
  ⟨(handleClose_classification c2aState).1 (by decide),
    (handleClose_classification c2bState).2 (by decide) (by decide)⟩

/-! ## C3 — heartbeat ack tracking and zombie termination -/

theorem hbStep_inv (st : HeartbeatState) (e : HBEvent) (h : HBInv st) :
    HBInv (hbStep st e) := by
  obtain ⟨ack, wsOpen, term, act, fired, sent, since⟩ := st
  cases e <;> cases ack <;> cases wsOpen <;> cases act <;> cases fired <;>
    simp_all [hbStep, HBInv]

theorem hbRun_inv (st : HeartbeatState) (events : List HBEvent) (h : HBInv st) :
    HBInv (hbRun st events) := by
  induction events generalizing st with
  | nil => exact h
  | cons e rest ih => exact ih (hbStep st e) (hbStep_inv st e h)

/-- C3 (counterexample): the claim asserts that *every* heartbeat send sets
the ack-pending flag, but the initial jittered heartbeat
(`this.sendHeartbeat()` in the `setTimeout` callback) sends without touching
`lastHeartbeatAck`: after it, a beat has been sent yet no ack is pending. -/
theorem heartbeat_initial_send_counterexample :
    (hbStep (startHeartbeatingState true) .initialFire).beatsSent = 1 ∧
    (hbStep (startHeartbeatingState true) .initialFire).lastHeartbeatAck = true := by
  decide

/-- C3 (amended): every heartbeat sent by the *interval timer* sets the
ack-pending flag, which only a HEARTBEAT_ACK clears, and a timer tick with
the ack still pending forcibly terminates the socket without sending; the
initial jittered heartbeat does not set the flag, but still at most two
heartbeats are ever sent without an intervening ack — a third is never
sent. -/
theorem heartbeat_zombie_detection :
    (∀ (wsOpen : Bool) (events : List HBEvent),
      (hbRun (startHeartbeatingState wsOpen) events).beatsSinceAck ≤ 2) ∧
    (∀ st : HeartbeatState, st.intervalActive = true → st.lastHeartbeatAck = false →
      hbStep st .tick = { st with terminated := true, wsOpen := false }) ∧
    (∀ st : HeartbeatState, st.intervalActive = true → st.lastHeartbeatAck = true →
      st.wsOpen = true →
      (hbStep st .tick).lastHeartbeatAck = false ∧
      (hbStep st .tick).beatsSent = st.beatsSent + 1) ∧
    (∀ (st : HeartbeatState) (e : HBEvent), e ≠ .ackReceived →
      st.lastHeartbeatAck = false → (hbStep st e).lastHeartbeatAck = false) := by
  refine ⟨?_, ?_, ?_, ?_⟩
  · intro wsOpen events
    have h0 : HBInv (startHeartbeatingState wsOpen) := by
      refine ⟨?_, ?_, ?_⟩ <;> simp [startHeartbeatingState]
    obtain ⟨h1, h2, h3⟩ := hbRun_inv (startHeartbeatingState wsOpen) events h0
    cases hack : (hbRun (startHeartbeatingState wsOpen) events).lastHeartbeatAck with
    | true => exact le_trans (h2 hack) (by omega)
    | false => exact h3 hack
  · intro st hact hack
    simp [hbStep, hact, hack]
  · intro st hact hack hopen
    simp [hbStep, hact, hack, hopen]
  · intro st e he hack
    obtain ⟨ack, wsOpen, term, act, fired, sent, since⟩ := st
    cases e <;> simp_all [hbStep] <;> split <;> simp_all

/-- C3 witness: the invariant bound on a concrete unacked double-beat trace,
termination without a send at a concrete pending state, a periodic send
setting the flag, and flag stability under a non-ack event. -/
theorem heartbeat_zombie_detection_witness :
    (hbRun (startHeartbeatingState true) [.initialFire, .tick, .tick, .tick]).beatsSinceAck ≤ 2 ∧
    hbStep c3St .tick = { c3St with terminated := true, wsOpen := false } ∧
    ((hbStep ⟨true, true, false, true, true, 1, 0⟩ .tick).lastHeartbeatAck = false ∧
      (hbStep ⟨true, true, false, true, true, 1, 0⟩ .tick).beatsSent = 1 + 1) ∧
    (hbStep c3St .initialFire).lastHeartbeatAck = false :=
  ⟨heartbeat_zombie_detection.1 true [.initialFire, .tick, .tick, .tick],
    heartbeat_zombie_detection.2.1 c3St (by decide) (by decide),
    heartbeat_zombie_detection.2.2.1 ⟨true, true, false, true, true, 1, 0⟩
      (by decide) (by decide) (by decide),
    heartbeat_zombie_detection.2.2.2 c3St .initialFire (by decide) (by decide)⟩

/-! ## C6 — multipart header precedence -/

theorem hlookup_cons (p : String × String) (rest : Headers) (k : String) :
    hlookup (p :: rest) k = if p.1 == k then some p.2 else hlookup rest k := by
  unfold hlookup
  cases hp : (p.1 == k) with
  | true =>
      rw [List.find?_cons, hp]
      simp
  | false =>
      rw [List.find?_cons, hp]
      simp [hp]

theorem hlookup_append (a b : Headers) (k : String) :
    hlookup (a ++ b) k = ofirst (hlookup a k) (hlookup b k) := by
  induction a with
  | nil => simp [hlookup, ofirst]
  | cons p rest ih =>
      rw [List.cons_append, hlookup_cons, hlookup_cons]
      cases hp : (p.1 == k) with
      | true => simp [ofirst, hp]
      | false =>
          rw [if_neg (by simp [hp]), if_neg (by simp [hp])]
          exact ih

theorem hlookup_override (a b : Headers) (k : String) :
    hlookup (a.map (fun p => match hlookup b p.1 with | some v => (p.1, v) | none => p)) k =
      (hlookup a k).map (fun v => (hlookup b k).getD v) := by
  induction a with
  | nil => simp [hlookup]
  | cons p rest ih =>
      rw [List.map_cons]
      have hfst : (match hlookup b p.1 with | some v => (p.1, v) | none => p) =
          ((p.1, (hlookup b p.1).getD p.2) : String × String) := by
        cases hlookup b p.1 <;> rfl
      rw [hfst, hlookup_cons, hlookup_cons]
      cases hp : (p.1 == k) with
      | true =>
          have hk : p.1 = k := eq_of_beq hp
          subst hk
          simp
      | false =>
          rw [if_neg (by simp [hp]), if_neg (by simp [hp])]
          exact ih

theorem hlookup_filter_keep (b : Headers) (k : String) (q : String × String → Bool)
    (hq : ∀ p, p.1 = k → q p = true) :
    hlookup (b.filter q) k = hlookup b k := by
  induction b with
  | nil => rfl
  | cons p rest ih =>
      rw [List.filter_cons]
      cases hp : (p.1 == k) with
      | true =>
          rw [if_pos (hq p (eq_of_beq hp))]
          rw [hlookup_cons, hlookup_cons, if_pos hp, if_pos hp]
      | false =>
          cases hqp : q p with
          | true =>
              rw [if_pos rfl]
              rw [hlookup_cons, hlookup_cons, if_neg (by simp [hp]),
                if_neg (by simp [hp])]
              exact ih
          | false =>
              rw [if_neg (by simp)]
              rw [hlookup_cons, if_neg (by simp [hp])]
              exact ih

theorem jget_isSome_of_jhas (m : JMap) (k : String) (h : jhas m k = true) :
    (jget m k).isSome = true := by
  induction m with
  | nil => simp [jhas] at h
  | cons p rest ih =>
      unfold jget at ih ⊢
      cases hp : (p.1 == k) with
      | true =>
          rw [List.find?_cons, hp]
          rfl
      | false =>
          rw [List.find?_cons, hp]
          apply ih
          simp only [jhas, List.any_cons, hp, Bool.false_or] at h
          exact h

theorem hlookup_spreadMerge (a b : Headers) (k : String) :
    hlookup (spreadMerge a b) k = ofirst (hlookup b k) (hlookup a k) := by
  unfold spreadMerge
  rw [hlookup_append, hlookup_override]
  cases ha : hlookup a k with
  | none =>
      have hhas : jhas a k = false := by
        cases hh : jhas a k with
        | false => rfl
        | true =>
            have := jget_isSome_of_jhas a k hh
            rw [show jget a k = hlookup a k from rfl, ha] at this
            exact Bool.noConfusion this
      rw [hlookup_filter_keep]
      · cases hb : hlookup b k <;> simp [ofirst, hb]
      · intro p hpk
        simp only [jhas, List.any_eq_false] at hhas
        simp only [Bool.not_eq_true']
        rw [List.any_eq_false]
        intro q hq
        have := hhas q hq
        rw [hpk]
        intro hc
        rw [eq_of_beq hc] at this
        simp at this
  | some v =>
      cases hb : hlookup b k <;> simp [ofirst, hb]

/-- C6 (counterexample): for a multipart request, a per-request
`content-type` override does *not* win — `Object.assign(headers,
formData.getHeaders())` runs after the spread of the per-request headers, so
the computed multipart boundary header overwrites it. -/
theorem multipart_header_counterexample :
    hlookup (computeRequestHeaders [] [("content-type", "application/json")]
        [("content-type", "multipart-boundary")] true) "content-type" =
      some "multipart-boundary" ∧
    ("multipart-boundary" : String) ≠ "application/json" := by decide

/-- C6 (amended): for a multipart request the headers are merged from
session defaults, then per-request overrides, then the computed multipart
boundary headers, in *that* precedence order — the computed multipart header
wins over a per-request header of the same name, which wins over a session
default. -/
theorem multipart_header_precedence
    (sessionHeaders requestHeaders formHeaders : Headers) (k : String) :
    hlookup (computeRequestHeaders sessionHeaders requestHeaders formHeaders true) k =
      ofirst (hlookup formHeaders k)
        (ofirst (hlookup requestHeaders k) (hlookup sessionHeaders k)) := by
  unfold computeRequestHeaders
  rw [if_pos rfl]
  rw [hlookup_spreadMerge, hlookup_spreadMerge]

/-! ## C4, C5 — dispatcher retry and rate-limit policy -/

theorem execute_nil (st : HttpState) :
    execute st [] = ⟨.noResponse, sendTime st, st.globalReset, [sendTime st]⟩ := rfl

theorem execute_netError_cons (st : HttpState) (rest : List HttpResponse) :
    execute st (.netError :: rest) =
      (if st.retries + 1 < 3 then
        let o := execute ⟨sendTime st + 1000 * ((st.retries + 1 : ℕ) : ℚ),
          st.globalReset, st.retries + 1⟩ rest
        ⟨o.result, o.time, o.globalReset, sendTime st :: o.sends⟩
      else ⟨.networkError, sendTime st, st.globalReset, [sendTime st]⟩) := rfl

theorem execute_reply_cons (st : HttpState) (status : Nat) (body : String) (ra : ℚ)
    (g : Bool) (rest : List HttpResponse) :
    execute st (.reply status body ra g :: rest) =
      (if status = 429 then
        let o := execute ⟨sendTime st + ra * 1000,
          if g then sendTime st + ra * 1000 else st.globalReset, st.retries⟩ rest
        ⟨o.result, o.time, o.globalReset, sendTime st :: o.sends⟩
      else if 500 ≤ status ∧ status < 600 ∧ st.retries + 1 < 3 then
        let o := execute ⟨sendTime st + 1000 * ((st.retries + 1 : ℕ) : ℚ) ^ 2,
          st.globalReset, st.retries + 1⟩ rest
        ⟨o.result, o.time, o.globalReset, sendTime st :: o.sends⟩
      else if 200 ≤ status ∧ status < 300 then
        ⟨.success body, sendTime st, st.globalReset, [sendTime st]⟩
      else ⟨.apiError status, sendTime st, st.globalReset, [sendTime st]⟩) := rfl

/-- C4: a 429 response causes a sleep of `retry_after * 1000` and a retry of
the same request, with the global reset timestamp set first when the limit
is global (conjunct 1); every send of an execution waits out the global
reset in force when it entered (conjunct 2, for nonnegative `retry_after`);
and any number of 429 responses is retried through to the eventual success,
never surfacing a rate-limit error to the caller (conjunct 3). -/
theorem rate_limit_handling :
    (∀ (st : HttpState) (b : String) (ra : ℚ) (g : Bool) (rest : List HttpResponse),
      execute st (.reply 429 b ra g :: rest) =
        (let o := execute ⟨sendTime st + ra * 1000,
            if g then sendTime st + ra * 1000 else st.globalReset, st.retries⟩ rest
         ⟨o.result, o.time, o.globalReset, sendTime st :: o.sends⟩)) ∧
    (∀ (resps : List HttpResponse) (st : HttpState), NonnegRetryAfter resps →
      ∀ x ∈ (execute st resps).sends, st.globalReset ≤ x) ∧
    (∀ (n : Nat) (st : HttpState) (b : String) (ra : ℚ) (g : Bool) (body : String)
        (ra2 : ℚ) (g2 : Bool),
      (execute st (List.replicate n (.reply 429 b ra g) ++
        [.reply 200 body ra2 g2])).result = .success body) := by
  refine ⟨?_, ?_, ?_⟩
  · intro st b ra g rest
    rw [execute_reply_cons, if_pos rfl]
  · intro resps
    induction resps with
    | nil =>
        intro st _ x hx
        rw [execute_nil] at hx
        rcases List.mem_singleton.mp hx with rfl
        exact le_max_right _ _
    | cons r rest ih =>
        intro st hnn x hx
        cases r with
        | netError =>
            rw [execute_netError_cons] at hx
            by_cases hr : st.retries + 1 < 3
            · rw [if_pos hr] at hx
              dsimp only at hx
              rcases List.mem_cons.mp hx with rfl | hx
              · exact le_max_right _ _
              · exact ih ⟨sendTime st + 1000 * ((st.retries + 1 : ℕ) : ℚ),
                  st.globalReset, st.retries + 1⟩ hnn x hx
            · rw [if_neg hr] at hx
              rcases List.mem_singleton.mp hx with rfl
              exact le_max_right _ _
        | reply status body ra g =>
            have hra : 0 ≤ ra := hnn.1
            have hnn2 : NonnegRetryAfter rest := hnn.2
            rw [execute_reply_cons] at hx
            by_cases h429 : status = 429
            · rw [if_pos h429] at hx
              dsimp only at hx
              rcases List.mem_cons.mp hx with rfl | hx
              · exact le_max_right _ _
              · have hge : st.globalReset ≤
                    (if g then sendTime st + ra * 1000 else st.globalReset) := by
                  split
                  · have h1 : st.globalReset ≤ sendTime st := le_max_right _ _
                    have h2 : (0 : ℚ) ≤ ra * 1000 :=
                      mul_nonneg hra (by norm_num)
                    linarith
                  · exact le_refl _
                exact le_trans hge (ih _ hnn2 x hx)
            · rw [if_neg h429] at hx
              by_cases h5xx : 500 ≤ status ∧ status < 600 ∧ st.retries + 1 < 3
              · rw [if_pos h5xx] at hx
                dsimp only at hx
                rcases List.mem_cons.mp hx with rfl | hx
                · exact le_max_right _ _
                · exact ih ⟨sendTime st + 1000 * ((st.retries + 1 : ℕ) : ℚ) ^ 2,
                    st.globalReset, st.retries + 1⟩ hnn2 x hx
              · rw [if_neg h5xx] at hx
                by_cases h2xx : 200 ≤ status ∧ status < 300
                · rw [if_pos h2xx] at hx
                  rcases List.mem_singleton.mp hx with rfl
                  exact le_max_right _ _
                · rw [if_neg h2xx] at hx
                  rcases List.mem_singleton.mp hx with rfl
                  exact le_max_right _ _
  · intro n
    induction n with
    | zero =>
        intro st b ra g body ra2 g2
        simp only [List.replicate, List.nil_append]
        rw [execute_reply_cons, if_neg (by omega),
          if_neg (fun hc => by omega), if_pos (by omega)]
    | succ m ih =>
        intro st b ra g body ra2 g2
        rw [List.replicate_succ, List.cons_append, execute_reply_cons, if_pos rfl]
        dsimp only
        exact ih _ b ra g body ra2 g2

/-- C4 witness: a global 429 followed by a success, entered at clock 0 with
a global reset of 250 already pending: every send waits the reset out. -/
theorem rate_limit_handling_witness :
    NonnegRetryAfter [HttpResponse.reply 429 "" (1/2) true,
      HttpResponse.reply 200 "ok" 0 false] ∧
    ∀ x ∈ (execute ⟨0, 250, 0⟩ [HttpResponse.reply 429 "" (1/2) true,
      HttpResponse.reply 200 "ok" 0 false]).sends, (250 : ℚ) ≤ x :=
  ⟨by norm_num [NonnegRetryAfter],
    rate_limit_handling.2.1 _ ⟨0, 250, 0⟩ (by norm_num [NonnegRetryAfter])⟩

/-- C5 (counterexample): after three 5xx responses the request falls through
`handleResponse` to the final rejection (line 135) and surfaces as a
`DiscordAPIError` — the very same error class a 400 surfaces as — rather
than as a distinct server-error type. -/
theorem server_error_taxonomy_counterexample :
    (execute ⟨0, 0, 0⟩ [.reply 500 "e" 0 false, .reply 500 "e" 0 false,
      .reply 500 "e" 0 false]).result = .apiError 500 ∧
    (execute ⟨0, 0, 0⟩ [.reply 400 "e" 0 false]).result = .apiError 400 := by
  constructor <;> rfl

/-- C5 (amended): a request whose responses are 5xx is retried with
quadratic backoff (`1000 * retries²` ms: +1000 then +4000) up to 3 total
attempts, after which it is rejected with a `DiscordAPIError` — the same
error class used for non-429 4xx statuses, not a distinct server-error
type. -/
theorem server_error_retried_then_apiError (t0 g0 : ℚ) (hg : g0 ≤ t0) (s : Nat)
    (b1 b2 b3 : String) (ra1 ra2 ra3 : ℚ) (gl1 gl2 gl3 : Bool)
    (h5 : 500 ≤ s) (h6 : s < 600) :
    execute ⟨t0, g0, 0⟩
        [.reply s b1 ra1 gl1, .reply s b2 ra2 gl2, .reply s b3 ra3 gl3] =
      ⟨.apiError s, t0 + 5000, g0, [t0, t0 + 1000, t0 + 5000]⟩ := by
  have h429 : ¬(s = 429) := by omega
  have h2xx : ¬(200 ≤ s ∧ s < 300) := by omega
  have hm0 : sendTime ⟨t0, g0, 0⟩ = t0 := max_eq_left hg
  have hm1 : sendTime ⟨t0 + 1000, g0, 1⟩ = t0 + 1000 :=
    max_eq_left (by show g0 ≤ t0 + 1000; linarith)
  have hm2 : sendTime ⟨t0 + 5000, g0, 2⟩ = t0 + 5000 :=
    max_eq_left (by show g0 ≤ t0 + 5000; linarith)
  have e3 : execute ⟨t0 + 5000, g0, 2⟩ [.reply s b3 ra3 gl3] =
      ⟨.apiError s, t0 + 5000, g0, [t0 + 5000]⟩ := by
    rw [execute_reply_cons, if_neg h429, if_neg (by dsimp only; omega),
      if_neg h2xx, hm2]
  have e2 : execute ⟨t0 + 1000, g0, 1⟩ [.reply s b2 ra2 gl2, .reply s b3 ra3 gl3] =
      ⟨.apiError s, t0 + 5000, g0, [t0 + 1000, t0 + 5000]⟩ := by
    rw [execute_reply_cons, if_neg h429,
      if_pos (by dsimp only; exact ⟨h5, h6, by omega⟩)]
    rw [hm1]
    dsimp only
    have harith : t0 + 1000 + 1000 * ((1 + 1 : ℕ) : ℚ) ^ 2 = t0 + 5000 := by
      push_cast
      ring
    rw [harith, e3]
  rw [execute_reply_cons, if_neg h429,
    if_pos (by dsimp only; exact ⟨h5, h6, by omega⟩)]
  rw [hm0]
  dsimp only
  have harith0 : t0 + 1000 * ((0 + 1 : ℕ) : ℚ) ^ 2 = t0 + 1000 := by
    push_cast
    ring
  rw [harith0, e2]

/-- C5 witness: three 503 responses from clock 0. -/
theorem server_error_retried_then_apiError_witness :
    execute ⟨0, 0, 0⟩ [.reply 503 "e1" 0 false, .reply 503 "e2" 0 false,
      .reply 503 "e3" 0 false] =
      ⟨.apiError 503, 0 + 5000, 0, [0, 0 + 1000, 0 + 5000]⟩ :=
  server_error_retried_then_apiError 0 0 (le_refl 0) 503 "e1" "e2" "e3" 0 0 0
    false false false (by omega) (by omega)

/-! ## Lemmas about `resolveImage` -/

theorem resolveImage_succ (svc : ImageServiceOracle) (now fuel : Nat) (st : RpcState)
    (image : RpcImage) :
    resolveImage svc now (fuel + 1) st (some image) =
      (if sstartsWith (RpcImage.getCacheKey image) "app_asset:" then
        match (alookup (ensureAppAssetsLoaded svc st).1.applicationAssetsCache
            (ensureAppAssetsLoaded svc st).1.applicationId).bind
            (fun m => jget m ((RpcImage.getCacheKey image).drop ("app_asset:".length))) with
        | none => ⟨none, (ensureAppAssetsLoaded svc st).1, (ensureAppAssetsLoaded svc st).2, 0⟩
        | some assetId =>
            ⟨some assetId, (ensureAppAssetsLoaded svc st).1, (ensureAppAssetsLoaded svc st).2, 0⟩
      else
        match jget (evictIfFull st.resolvedAssetsCache (RpcImage.getCacheKey image))
            (RpcImage.getCacheKey image) with
        | some cachedAsset =>
            let r := renewAssetIfNeeded svc now
              (evictIfFull st.resolvedAssetsCache (RpcImage.getCacheKey image))
              (RpcImage.getCacheKey image) cachedAsset
            ⟨some r.result, { st with resolvedAssetsCache := r.cache }, r.calls, 0⟩
        | none =>
            match (RpcImage.resolveProc svc image).1 with
            | some resolvedAsset =>
                if sstartsWith resolvedAsset "app_asset:" then
                  let rc := resolveImage svc now fuel
                    { st with
                        resolvedAssetsCache :=
                          evictIfFull st.resolvedAssetsCache (RpcImage.getCacheKey image) }
                    (some image)
                  ⟨rc.result, rc.state, (RpcImage.resolveProc svc image).2 ++ rc.calls,
                    1 + rc.procCalls⟩
                else
                  ⟨some resolvedAsset,
                    { st with
                        resolvedAssetsCache :=
                          jset (evictIfFull st.resolvedAssetsCache
                            (RpcImage.getCacheKey image))
                            (RpcImage.getCacheKey image) resolvedAsset },
                    (RpcImage.resolveProc svc image).2, 1⟩
            | none =>
                ⟨none,
                  { st with
                      resolvedAssetsCache :=
                        evictIfFull st.resolvedAssetsCache (RpcImage.getCacheKey image) },
                  (RpcImage.resolveProc svc image).2, 1⟩) := by
  show _ = _
  rfl

theorem ensureAppAssetsLoaded_resolved (svc : ImageServiceOracle) (st : RpcState) :
    (ensureAppAssetsLoaded svc st).1.resolvedAssetsCache = st.resolvedAssetsCache := by
  unfold ensureAppAssetsLoaded
  cases alookup st.applicationAssetsCache st.applicationId <;> rfl

theorem resolveImage_app_state (svc : ImageServiceOracle) (now fuel : Nat)
    (st : RpcState) (image : RpcImage)
    (happ : sstartsWith (RpcImage.getCacheKey image) "app_asset:" = true) :
    (resolveImage svc now (fuel + 1) st (some image)).state =
      (ensureAppAssetsLoaded svc st).1 ∧
    (resolveImage svc now (fuel + 1) st (some image)).procCalls = 0 := by
  rw [resolveImage_succ, if_pos happ]
  cases (alookup (ensureAppAssetsLoaded svc st).1.applicationAssetsCache
      (ensureAppAssetsLoaded svc st).1.applicationId).bind
      (fun m => jget m ((RpcImage.getCacheKey image).drop ("app_asset:".length))) <;>
    exact ⟨rfl, rfl⟩

theorem getCacheKey_ne_empty (image : RpcImage) : RpcImage.getCacheKey image ≠ "" := by
  cases image <;>
    · intro h
      have h2 := congrArg String.length h
      simp [RpcImage.getCacheKey, String.length_append] at h2
      exact absurd h2.1 (by decide)

theorem renewAssetIfNeeded_cache_cases (svc : ImageServiceOracle) (now : Nat)
    (cache : JMap) (cacheKey assetKey : String) :
    (renewAssetIfNeeded svc now cache cacheKey assetKey).cache = cache ∨
    ∃ na, (renewAssetIfNeeded svc now cache cacheKey assetKey).cache =
      jset cache cacheKey na := by
  unfold renewAssetIfNeeded
  cases getExpiryTime assetKey with
  | none => exact Or.inl rfl
  | some e =>
      dsimp only
      split
      · cases svc.renewImage (((jsSplit assetKey "mp:attachments/").drop 1).headD "") with
        | none => exact Or.inl rfl
        | some na => exact Or.inr ⟨na, rfl⟩
      · exact Or.inl rfl

theorem evict_miss_size (m : JMap) (k : String) (hWF : CacheWF m)
    (hsize : jsize m ≤ MAX_CACHE_SIZE) (hmiss : jhas m k = false) :
    jsize (evictIfFull m k) + 1 ≤ MAX_CACHE_SIZE := by
  by_cases hfull : MAX_CACHE_SIZE ≤ jsize m
  · cases m with
    | nil => simp [jsize, MAX_CACHE_SIZE] at hfull
    | cons p rest =>
        obtain ⟨k0, v0⟩ := p
        rw [evictIfFull_full k0 v0 rest k hWF hfull hmiss]
        simp only [jsize, List.length_cons] at hsize ⊢
        omega
  · unfold evictIfFull
    rw [if_neg (fun hc => hfull hc.1)]
    omega

theorem jhas_of_isFalse_jget (m : JMap) (k : String) (h : jget m k = none) :
    jhas m k = false := by
  cases hh : jhas m k with
  | false => rfl
  | true =>
      have := jget_isSome_of_jhas m k hh
      rw [h] at this
      exact Bool.noConfusion this

theorem resolveImage_cache_inv (svc : ImageServiceOracle) (now : Nat) :
    ∀ (fuel : Nat) (st : RpcState) (img : Option RpcImage),
      CacheWF st.resolvedAssetsCache → jsize st.resolvedAssetsCache ≤ MAX_CACHE_SIZE →
      CacheWF (resolveImage svc now fuel st img).state.resolvedAssetsCache ∧
      jsize (resolveImage svc now fuel st img).state.resolvedAssetsCache ≤
        MAX_CACHE_SIZE := by
  intro fuel
  induction fuel with
  | zero =>
      intro st img hWF hsize
      cases img with
      | none => exact ⟨hWF, hsize⟩
      | some image => exact ⟨hWF, hsize⟩
  | succ fuel ih =>
      intro st img hWF hsize
      cases img with
      | none => exact ⟨hWF, hsize⟩
      | some image =>
          by_cases happ : sstartsWith (RpcImage.getCacheKey image) "app_asset:" = true
          · rw [(resolveImage_app_state svc now fuel st image happ).1,
              ensureAppAssetsLoaded_resolved]
            exact ⟨hWF, hsize⟩
          · rw [resolveImage_succ, if_neg happ]
            have hcWF : CacheWF (evictIfFull st.resolvedAssetsCache
                (RpcImage.getCacheKey image)) :=
              cacheWF_evictIfFull _ _ hWF
            have hcsize : jsize (evictIfFull st.resolvedAssetsCache
                (RpcImage.getCacheKey image)) ≤ MAX_CACHE_SIZE :=
              le_trans (jsize_evictIfFull_le _ _) hsize
            cases hget : jget (evictIfFull st.resolvedAssetsCache
                (RpcImage.getCacheKey image)) (RpcImage.getCacheKey image) with
            | some cachedAsset =>
                dsimp only
                rcases renewAssetIfNeeded_cache_cases svc now
                    (evictIfFull st.resolvedAssetsCache (RpcImage.getCacheKey image))
                    (RpcImage.getCacheKey image) cachedAsset with hc | ⟨na, hc⟩
                · rw [hc]
                  exact ⟨hcWF, hcsize⟩
                · rw [hc]
                  have hhas := jhas_of_jget _ _ _ hget
                  refine ⟨cacheWF_jset _ _ _ hcWF (getCacheKey_ne_empty image), ?_⟩
                  rw [jsize_jset_of_jhas _ _ _ hhas]
                  exact hcsize
            | none =>
                dsimp only
                cases hpr : (RpcImage.resolveProc svc image).1 with
                | none => exact ⟨hcWF, hcsize⟩
                | some resolvedAsset =>
                    dsimp only
                    by_cases hra : sstartsWith resolvedAsset "app_asset:" = true
                    · rw [if_pos hra]
                      dsimp only
                      exact ih
                        { st with
                            resolvedAssetsCache :=
                              evictIfFull st.resolvedAssetsCache
                                (RpcImage.getCacheKey image) }
                        (some image) hcWF hcsize
                    · rw [if_neg hra]
                      dsimp only
                      have hmiss : jhas (evictIfFull st.resolvedAssetsCache
                          (RpcImage.getCacheKey image)) (RpcImage.getCacheKey image) =
                          false := jhas_of_isFalse_jget _ _ hget
                      have hmiss0 : jhas st.resolvedAssetsCache
                          (RpcImage.getCacheKey image) = false := by
                        cases hh : jhas st.resolvedAssetsCache
                            (RpcImage.getCacheKey image) with
                        | false => rfl
                        | true =>
                            have heq := evictIfFull_of_jhas st.resolvedAssetsCache
                              (RpcImage.getCacheKey image) hh
                            rw [heq] at hget
                            have := jget_isSome_of_jhas st.resolvedAssetsCache
                              (RpcImage.getCacheKey image) hh
                            rw [hget] at this
                            exact Bool.noConfusion this
                      have hsz := evict_miss_size st.resolvedAssetsCache
                        (RpcImage.getCacheKey image) hWF hsize hmiss0
                      refine ⟨cacheWF_jset _ _ _ hcWF (getCacheKey_ne_empty image), ?_⟩
                      rw [jsize_jset_of_not_jhas _ _ _ hmiss]
                      exact hsz

theorem runResolves_cache_inv (svc : ImageServiceOracle) (now fuel : Nat)
    (imgs : List (Option RpcImage)) :
    ∀ st : RpcState, CacheWF st.resolvedAssetsCache →
      jsize st.resolvedAssetsCache ≤ MAX_CACHE_SIZE →
      CacheWF (runResolves svc now fuel st imgs).resolvedAssetsCache ∧
      jsize (runResolves svc now fuel st imgs).resolvedAssetsCache ≤ MAX_CACHE_SIZE := by
  induction imgs with
  | nil =>
      intro st hWF hsize
      exact ⟨hWF, hsize⟩
  | cons i rest ih =>
      intro st hWF hsize
      obtain ⟨hWF2, hsize2⟩ := resolveImage_cache_inv svc now fuel st i hWF hsize
      exact ih (resolveImage svc now fuel st i).state hWF2 hsize2

theorem resolveImage_fresh_small (svc : ImageServiceOracle) (now : Nat) :
    ∀ (fuel : Nat) (st : RpcState) (image : RpcImage),
      sstartsWith (RpcImage.getCacheKey image) "app_asset:" = false →
      jhas st.resolvedAssetsCache (RpcImage.getCacheKey image) = false →
      jsize st.resolvedAssetsCache < MAX_CACHE_SIZE →
      (resolveImage svc now fuel st (some image)).state.resolvedAssetsCache =
          st.resolvedAssetsCache ∨
      ∃ a, (resolveImage svc now fuel st (some image)).state.resolvedAssetsCache =
          st.resolvedAssetsCache ++ [(RpcImage.getCacheKey image, a)] := by
  intro fuel
  induction fuel with
  | zero => intro st image _ _ _; exact Or.inl rfl
  | succ fuel ih =>
      intro st image happ hmiss hsmall
      rw [resolveImage_succ, if_neg (by simp [happ])]
      have hev : evictIfFull st.resolvedAssetsCache (RpcImage.getCacheKey image) =
          st.resolvedAssetsCache := by
        unfold evictIfFull
        rw [if_neg (fun hc => absurd hc.1 (Nat.not_le.mpr hsmall))]
      rw [hev]
      cases hget : jget st.resolvedAssetsCache (RpcImage.getCacheKey image) with
      | some v =>
          have := jhas_of_jget _ _ _ hget
          rw [hmiss] at this
          exact Bool.noConfusion this
      | none =>
          dsimp only
          cases hpr : (RpcImage.resolveProc svc image).1 with
          | none => exact Or.inl rfl
          | some a =>
              dsimp only
              by_cases hra : sstartsWith a "app_asset:" = true
              · rw [if_pos hra]
                dsimp only
                exact ih { st with resolvedAssetsCache := st.resolvedAssetsCache }
                  image happ hmiss hsmall
              · rw [if_neg hra]
                dsimp only
                right
                refine ⟨a, ?_⟩
                unfold jset
                rw [if_neg (by simp [hmiss])]

theorem resolveImage_at_capacity (svc : ImageServiceOracle) (now fuel : Nat)
    (st : RpcState) (image : RpcImage) (k0 v0 : String) (rest : JMap)
    (happ : sstartsWith (RpcImage.getCacheKey image) "app_asset:" = false)
    (hcache : st.resolvedAssetsCache = (k0, v0) :: rest)
    (hWF : CacheWF st.resolvedAssetsCache)
    (hfull : jsize st.resolvedAssetsCache = MAX_CACHE_SIZE)
    (hmiss : jhas st.resolvedAssetsCache (RpcImage.getCacheKey image) = false) :
    (resolveImage svc now (fuel + 1) st (some image)).state.resolvedAssetsCache =
        rest ∨
    ∃ a, (resolveImage svc now (fuel + 1) st (some image)).state.resolvedAssetsCache =
        rest ++ [(RpcImage.getCacheKey image, a)] := by
  rw [resolveImage_succ, if_neg (by simp [happ])]
  have hev : evictIfFull st.resolvedAssetsCache (RpcImage.getCacheKey image) = rest := by
    rw [hcache] at hWF hfull hmiss ⊢
    exact evictIfFull_full k0 v0 rest _ hWF (le_of_eq hfull.symm) hmiss
  rw [hev]
  have hWFr : CacheWF rest := by
    rw [hcache] at hWF
    refine ⟨fun p hp => hWF.1 p (List.mem_cons_of_mem _ hp), ?_⟩
    have hnd := hWF.2
    simp only [JMapWF, List.map_cons, List.nodup_cons] at hnd
    exact hnd.2
  have hmissr : jhas rest (RpcImage.getCacheKey image) = false := by
    rw [hcache] at hmiss
    simp only [jhas, List.any_cons, Bool.or_eq_false_iff] at hmiss
    exact hmiss.2
  have hsmall : jsize rest < MAX_CACHE_SIZE := by
    rw [hcache] at hfull
    simp only [jsize, List.length_cons] at hfull ⊢
    omega
  cases hget : jget rest (RpcImage.getCacheKey image) with
  | some v =>
      have := jhas_of_jget _ _ _ hget
      rw [hmissr] at this
      exact Bool.noConfusion this
  | none =>
      dsimp only
      cases hpr : (RpcImage.resolveProc svc image).1 with
      | none => exact Or.inl rfl
      | some a =>
          dsimp only
          by_cases hra : sstartsWith a "app_asset:" = true
          · rw [if_pos hra]
            dsimp only
            exact resolveImage_fresh_small svc now fuel
              { st with resolvedAssetsCache := rest } image happ hmissr hsmall
          · rw [if_neg hra]
            dsimp only
            right
            refine ⟨a, ?_⟩
            unfold jset
            rw [if_neg (by simp [hmissr])]

/-! ## C1 — bounded cache with insertion-order (FIFO) eviction -/

/-- C1: (i) over every sequence of `resolveImage` calls from a fresh
instance, the resolved-asset cache never holds more than `MAX_CACHE_SIZE`
(50) entries; (ii) whenever a key not in the cache is resolved while the
cache is at capacity, the earliest-inserted entry (the head of the
insertion-ordered cache — FIFO, not least-recently-used) is evicted: it is
gone afterwards, and the cache is its tail, possibly with the new entry
appended. -/
theorem resolveImage_cache_bound_and_fifo :
    (∀ (svc : ImageServiceOracle) (now fuel : Nat) (appId : String)
        (imgs : List (Option RpcImage)),
      jsize (runResolves svc now fuel (initialRpcState appId) imgs).resolvedAssetsCache ≤
        MAX_CACHE_SIZE) ∧
    (∀ (svc : ImageServiceOracle) (now fuel : Nat) (st : RpcState) (image : RpcImage)
        (k0 v0 : String) (rest : JMap),
      sstartsWith (RpcImage.getCacheKey image) "app_asset:" = false →
      st.resolvedAssetsCache = (k0, v0) :: rest →
      CacheWF st.resolvedAssetsCache →
      jsize st.resolvedAssetsCache = MAX_CACHE_SIZE →
      jhas st.resolvedAssetsCache (RpcImage.getCacheKey image) = false →
      jhas (resolveImage svc now (fuel + 1) st
        (some image)).state.resolvedAssetsCache k0 = false ∧
      ((resolveImage svc now (fuel + 1) st (some image)).state.resolvedAssetsCache =
          rest ∨
        ∃ a, (resolveImage svc now (fuel + 1) st
          (some image)).state.resolvedAssetsCache =
            rest ++ [(RpcImage.getCacheKey image, a)])) := by
  constructor
  · intro svc now fuel appId imgs
    exact (runResolves_cache_inv svc now fuel imgs (initialRpcState appId)
      ⟨fun p hp => absurd hp (List.not_mem_nil p), List.nodup_nil⟩
      (by simp [jsize, initialRpcState, MAX_CACHE_SIZE])).2
  · intro svc now fuel st image k0 v0 rest happ hcache hWF hfull hmiss
    have hcases := resolveImage_at_capacity svc now fuel st image k0 v0 rest
      happ hcache hWF hfull hmiss
    refine ⟨?_, hcases⟩
    have hk0rest : jhas rest k0 = false := by
      rw [hcache] at hWF
      have hnd := hWF.2
      simp only [JMapWF, List.map_cons, List.nodup_cons] at hnd
      simp only [jhas, List.any_eq_false]
      intro p hp hc
      exact hnd.1 (List.mem_map.mpr ⟨p, hp, eq_of_beq hc⟩)
    have hk0ne : ¬(RpcImage.getCacheKey image = k0) := by
      intro he
      rw [hcache] at hmiss
      simp only [jhas, List.any_cons, Bool.or_eq_false_iff] at hmiss
      have := hmiss.1
      rw [he] at this
      simp at this
    rcases hcases with hc | ⟨a, hc⟩
    · rw [hc]
      exact hk0rest
    · rw [hc]
      simp only [jhas, List.any_append, Bool.or_eq_false_iff]
      refine ⟨hk0rest, ?_⟩
      simp [hk0ne]

/-- C1 witness: the bound on a one-call run, and FIFO eviction at a concrete
full 50-entry cache (k0..k49) resolving a fresh external reference. -/
theorem resolveImage_cache_bound_and_fifo_witness :
    jsize (runResolves svcFailing 0 3 (initialRpcState "app")
      [some (.externalImage "u")]).resolvedAssetsCache ≤ MAX_CACHE_SIZE ∧
    (sstartsWith (RpcImage.getCacheKey (.externalImage "u")) "app_asset:" = false ∧
      fullCache = ("k0", "v") :: fullCacheRest ∧
      CacheWF fullCache ∧
      jsize fullCache = MAX_CACHE_SIZE ∧
      jhas fullCache (RpcImage.getCacheKey (.externalImage "u")) = false) ∧
    (jhas (resolveImage svcFailing 0 1 ⟨fullCache, [], "app"⟩
        (some (.externalImage "u"))).state.resolvedAssetsCache "k0" = false ∧
      ((resolveImage svcFailing 0 1 ⟨fullCache, [], "app"⟩
          (some (.externalImage "u"))).state.resolvedAssetsCache = fullCacheRest ∨
        ∃ a, (resolveImage svcFailing 0 1 ⟨fullCache, [], "app"⟩
          (some (.externalImage "u"))).state.resolvedAssetsCache =
            fullCacheRest ++ [(RpcImage.getCacheKey (.externalImage "u"), a)])) :=
  ⟨resolveImage_cache_bound_and_fifo.1 svcFailing 0 3 "app" [some (.externalImage "u")],
    ⟨by decide, by decide, by decide, by decide, by decide⟩,
    resolveImage_cache_bound_and_fifo.2 svcFailing 0 0 ⟨fullCache, [], "app"⟩
      (.externalImage "u") "k0" "v" fullCacheRest (by decide) (by decide) (by decide)
      (by decide) (by decide)⟩

/-! ## C10 — eviction precedes resolution and is not atomic with insertion -/

/-- C10: at capacity, a resolve of an absent key evicts the earliest-inserted
entry before the underlying resolution runs; if that resolution then fails,
the call resolves to absent and the cache has lost one entry (now 49) and
gained none — eviction is not atomic with a successful insertion. -/
theorem resolveImage_eviction_not_atomic (svc : ImageServiceOracle) (now fuel : Nat)
    (st : RpcState) (image : RpcImage) (k0 v0 : String) (rest : JMap)
    (happ : sstartsWith (RpcImage.getCacheKey image) "app_asset:" = false)
    (hcache : st.resolvedAssetsCache = (k0, v0) :: rest)
    (hWF : CacheWF st.resolvedAssetsCache)
    (hfull : jsize st.resolvedAssetsCache = MAX_CACHE_SIZE)
    (hmiss : jhas st.resolvedAssetsCache (RpcImage.getCacheKey image) = false)
    (hfail : (RpcImage.resolveProc svc image).1 = none) :
    (resolveImage svc now (fuel + 1) st (some image)).result = none ∧
    (resolveImage svc now (fuel + 1) st (some image)).state.resolvedAssetsCache =
      rest ∧
    jsize (resolveImage svc now (fuel + 1) st (some image)).state.resolvedAssetsCache =
      MAX_CACHE_SIZE - 1 := by
  have hev : evictIfFull st.resolvedAssetsCache (RpcImage.getCacheKey image) = rest := by
    rw [hcache] at hWF hfull hmiss ⊢
    exact evictIfFull_full k0 v0 rest _ hWF (le_of_eq hfull.symm) hmiss
  have hmissr : jhas rest (RpcImage.getCacheKey image) = false := by
    rw [hcache] at hmiss
    simp only [jhas, List.any_cons, Bool.or_eq_false_iff] at hmiss
    exact hmiss.2
  have hgr : jget rest (RpcImage.getCacheKey image) = none :=
    jget_eq_none_of_not_jhas _ _ hmissr
  rw [resolveImage_succ, if_neg (by simp [happ]), hev, hgr, hfail]
  refine ⟨rfl, rfl, ?_⟩
  show jsize rest = MAX_CACHE_SIZE - 1
  rw [hcache] at hfull
  simp only [jsize, List.length_cons] at hfull
  simp only [jsize]
  omega

/-- C10 witness: the concrete full cache, an external reference the proxy
fails to resolve: the oldest entry k0 is gone, nothing was added. -/
theorem resolveImage_eviction_not_atomic_witness :
    (resolveImage svcFailing 0 1 ⟨fullCache, [], "app"⟩
      (some (.externalImage "u"))).result = none ∧
    (resolveImage svcFailing 0 1 ⟨fullCache, [], "app"⟩
      (some (.externalImage "u"))).state.resolvedAssetsCache = fullCacheRest ∧
    jsize (resolveImage svcFailing 0 1 ⟨fullCache, [], "app"⟩
      (some (.externalImage "u"))).state.resolvedAssetsCache = MAX_CACHE_SIZE - 1 :=
  resolveImage_eviction_not_atomic svcFailing 0 0 ⟨fullCache, [], "app"⟩
    (.externalImage "u") "k0" "v" fullCacheRest (by decide) (by decide) (by decide)
    (by decide) (by decide) (by decide)

/-! ## C8 — resolving twice performs the underlying resolution at most once -/

theorem resolveImage_procCalls_of_cached (svc : ImageServiceOracle) (now fuel : Nat)
    (st : RpcState) (image : RpcImage)
    (happ : sstartsWith (RpcImage.getCacheKey image) "app_asset:" = false)
    (hhas : jhas st.resolvedAssetsCache (RpcImage.getCacheKey image) = true) :
    (resolveImage svc now (fuel + 1) st (some image)).procCalls = 0 := by
  rw [resolveImage_succ, if_neg (by simp [happ]), evictIfFull_of_jhas _ _ hhas]
  cases hget : jget st.resolvedAssetsCache (RpcImage.getCacheKey image) with
  | some c => rfl
  | none =>
      have := jget_isSome_of_jhas _ _ hhas
      rw [hget] at this
      exact Bool.noConfusion this

theorem resolveImage_cached (svc : ImageServiceOracle) (now fuel : Nat) (st : RpcState)
    (image : RpcImage) (ak : String)
    (happ : sstartsWith (RpcImage.getCacheKey image) "app_asset:" = false)
    (hget : jget st.resolvedAssetsCache (RpcImage.getCacheKey image) = some ak) :
    resolveImage svc now (fuel + 1) st (some image) =
      ⟨some (renewAssetIfNeeded svc now st.resolvedAssetsCache
          (RpcImage.getCacheKey image) ak).result,
        { st with
            resolvedAssetsCache := (renewAssetIfNeeded svc now st.resolvedAssetsCache
              (RpcImage.getCacheKey image) ak).cache },
        (renewAssetIfNeeded svc now st.resolvedAssetsCache
          (RpcImage.getCacheKey image) ak).calls, 0⟩ := by
  have hhas := jhas_of_jget _ _ _ hget
  rw [resolveImage_succ, if_neg (by simp [happ]), evictIfFull_of_jhas _ _ hhas, hget]

theorem resolveImage_app_result_loop (svc : ImageServiceOracle) (now : Nat) :
    ∀ (fuel : Nat) (st : RpcState) (image : RpcImage) (v : String),
      sstartsWith (RpcImage.getCacheKey image) "app_asset:" = false →
      jhas st.resolvedAssetsCache (RpcImage.getCacheKey image) = false →
      (RpcImage.resolveProc svc image).1 = some v →
      sstartsWith v "app_asset:" = true →
      (resolveImage svc now fuel st (some image)).result = none := by
  intro fuel
  induction fuel with
  | zero => intro st image v _ _ _ _; rfl
  | succ fuel ih =>
      intro st image v happ hmiss hpr hra
      have hmiss2 : jhas (evictIfFull st.resolvedAssetsCache
          (RpcImage.getCacheKey image)) (RpcImage.getCacheKey image) = false :=
        jhas_evictIfFull_of_not _ _ hmiss
      rw [resolveImage_succ, if_neg (by simp [happ]),
        jget_eq_none_of_not_jhas _ _ hmiss2, hpr]
      dsimp only
      rw [if_pos hra]
      dsimp only
      exact ih
        { st with
            resolvedAssetsCache :=
              evictIfFull st.resolvedAssetsCache (RpcImage.getCacheKey image) }
        image v happ hmiss2 hpr hra

/-- C8 (counterexample): when the first resolution fails (resolves to
absent) nothing is cached, so a second resolve of the same cache key runs
the reference's resolve procedure again — two underlying resolutions, not at
most one. -/
theorem resolve_twice_counterexample :
    (resolveImage svcFailing 0 1 (initialRpcState "app")
        (some (.externalImage "u"))).procCalls +
      (resolveImage svcFailing 0 1
        (resolveImage svcFailing 0 1 (initialRpcState "app")
          (some (.externalImage "u"))).state
        (some (.externalImage "u"))).procCalls = 2 ∧
    ¬((resolveImage svcFailing 0 1 (initialRpcState "app")
        (some (.externalImage "u"))).procCalls +
      (resolveImage svcFailing 0 1
        (resolveImage svcFailing 0 1 (initialRpcState "app")
          (some (.externalImage "u"))).state
        (some (.externalImage "u"))).procCalls ≤ 1) := by decide

/-- C8 (amended): *provided the first resolve succeeds* (failures are never
cached), resolving the same reference twice without intervening eviction
invokes the reference's own resolve procedure at most once in total: the
second resolve is served from the cache (possibly after the renewal check)
and never re-invokes it. -/
theorem resolve_twice_at_most_one_resolution (svc : ImageServiceOracle)
    (now1 now2 fuel1 fuel2 : Nat) (st : RpcState) (image : RpcImage)
    (hsucc : (resolveImage svc now1 (fuel1 + 1) st (some image)).result.isSome = true) :
    (resolveImage svc now1 (fuel1 + 1) st (some image)).procCalls +
      (resolveImage svc now2 (fuel2 + 1)
        (resolveImage svc now1 (fuel1 + 1) st (some image)).state
        (some image)).procCalls ≤ 1 := by
  by_cases happ : sstartsWith (RpcImage.getCacheKey image) "app_asset:" = true
  · rw [(resolveImage_app_state svc now1 fuel1 st image happ).2,
      (resolveImage_app_state svc now2 fuel2
        (resolveImage svc now1 (fuel1 + 1) st (some image)).state image happ).2]
    omega
  · have happf : sstartsWith (RpcImage.getCacheKey image) "app_asset:" = false :=
      Bool.eq_false_iff.mpr happ
    cases hgetE : jget (evictIfFull st.resolvedAssetsCache (RpcImage.getCacheKey image))
        (RpcImage.getCacheKey image) with
    | some cachedAsset =>
        have hhasE := jhas_of_jget _ _ _ hgetE
        have hhas : jhas st.resolvedAssetsCache (RpcImage.getCacheKey image) = true := by
          cases hh : jhas st.resolvedAssetsCache (RpcImage.getCacheKey image) with
          | true => rfl
          | false =>
              have hf := jhas_evictIfFull_of_not st.resolvedAssetsCache
                (RpcImage.getCacheKey image) hh
              rw [hf] at hhasE
              exact Bool.noConfusion hhasE
        have hev := evictIfFull_of_jhas st.resolvedAssetsCache
          (RpcImage.getCacheKey image) hhas
        rw [hev] at hgetE
        rw [resolveImage_cached svc now1 fuel1 st image cachedAsset happf hgetE]
        dsimp only
        have hhas2 : jhas (renewAssetIfNeeded svc now1 st.resolvedAssetsCache
            (RpcImage.getCacheKey image) cachedAsset).cache
            (RpcImage.getCacheKey image) = true := by
          rcases renewAssetIfNeeded_cache_cases svc now1 st.resolvedAssetsCache
              (RpcImage.getCacheKey image) cachedAsset with hc | ⟨na, hc⟩
          · rw [hc]
            exact hhas
          · rw [hc]
            exact jhas_jset_self _ _ _
        rw [resolveImage_procCalls_of_cached svc now2 fuel2 _ image happf hhas2]
        omega
    | none =>
        cases hpr : (RpcImage.resolveProc svc image).1 with
        | none =>
            have h1 : (resolveImage svc now1 (fuel1 + 1) st (some image)).result =
                none := by
              rw [resolveImage_succ, if_neg (by simp [happf]), hgetE, hpr]
            rw [h1] at hsucc
            exact Bool.noConfusion hsucc
        | some a =>
            by_cases hra : sstartsWith a "app_asset:" = true
            · have hmiss0 : jhas st.resolvedAssetsCache
                  (RpcImage.getCacheKey image) = false := by
                cases hh : jhas st.resolvedAssetsCache
                    (RpcImage.getCacheKey image) with
                | false => rfl
                | true =>
                    have hev := evictIfFull_of_jhas st.resolvedAssetsCache
                      (RpcImage.getCacheKey image) hh
                    rw [hev] at hgetE
                    have := jget_isSome_of_jhas st.resolvedAssetsCache
                      (RpcImage.getCacheKey image) hh
                    rw [hgetE] at this
                    exact Bool.noConfusion this
              have h1 := resolveImage_app_result_loop svc now1 (fuel1 + 1) st image a
                happf hmiss0 hpr hra
              rw [h1] at hsucc
              exact Bool.noConfusion hsucc
            · have hraf : sstartsWith a "app_asset:" = false :=
                Bool.eq_false_iff.mpr hra
              have h1 : resolveImage svc now1 (fuel1 + 1) st (some image) =
                  ⟨some a,
                    { st with
                        resolvedAssetsCache :=
                          jset (evictIfFull st.resolvedAssetsCache
                            (RpcImage.getCacheKey image))
                            (RpcImage.getCacheKey image) a },
                    (RpcImage.resolveProc svc image).2, 1⟩ := by
                rw [resolveImage_succ, if_neg (by simp [happf]), hgetE, hpr]
                dsimp only
                rw [if_neg (by simp [hraf])]
              rw [h1]
              dsimp only
              rw [resolveImage_procCalls_of_cached svc now2 fuel2 _ image happf
                (jhas_jset_self _ _ _)]

/-- C8 witness: a successful external resolution, then a second resolve of
the same reference at a later clock: one underlying call in total. -/
theorem resolve_twice_at_most_one_resolution_witness :
    (resolveImage svcExternalOk 0 1 (initialRpcState "app")
      (some (.externalImage "u"))).result.isSome = true ∧
    (resolveImage svcExternalOk 0 1 (initialRpcState "app")
        (some (.externalImage "u"))).procCalls +
      (resolveImage svcExternalOk 5 1
        (resolveImage svcExternalOk 0 1 (initialRpcState "app")
          (some (.externalImage "u"))).state
        (some (.externalImage "u"))).procCalls ≤ 1 :=
  ⟨by decide,
    resolve_twice_at_most_one_resolution svcExternalOk 0 5 0 0
      (initialRpcState "app") (.externalImage "u") (by decide)⟩

/-! ## C7 — expiry-aware renewal of cached media-proxy keys -/

theorem renewAssetIfNeeded_far_expiry (svc : ImageServiceOracle) (now : Nat)
    (cache : JMap) (cacheKey assetKey : String) (e : Nat)
    (hexp : getExpiryTime assetKey = some e) (hfar : now + 3600000 < e) :
    renewAssetIfNeeded svc now cache cacheKey assetKey = ⟨assetKey, cache, []⟩ := by
  unfold renewAssetIfNeeded
  rw [hexp]
  dsimp only
  rw [if_neg (by omega)]

theorem renewAssetIfNeeded_near_expiry (svc : ImageServiceOracle) (now : Nat)
    (cache : JMap) (cacheKey assetKey : String) (e : Nat)
    (hexp : getExpiryTime assetKey = some e) (h0 : 0 < e) (hnear : e < now + 3600000) :
    (∀ na, svc.renewImage (((jsSplit assetKey "mp:attachments/").drop 1).headD "") =
        some na →
      renewAssetIfNeeded svc now cache cacheKey assetKey =
        ⟨na, jset cache cacheKey na,
          [.renewCall (((jsSplit assetKey "mp:attachments/").drop 1).headD "")]⟩) ∧
    (svc.renewImage (((jsSplit assetKey "mp:attachments/").drop 1).headD "") = none →
      renewAssetIfNeeded svc now cache cacheKey assetKey =
        ⟨assetKey, cache,
          [.renewCall (((jsSplit assetKey "mp:attachments/").drop 1).headD "")]⟩) := by
  constructor
  · intro na hna
    unfold renewAssetIfNeeded
    rw [hexp]
    dsimp only
    rw [if_pos ⟨by omega, hnear⟩, hna]
  · intro hna
    unfold renewAssetIfNeeded
    rw [hexp]
    dsimp only
    rw [if_pos ⟨by omega, hnear⟩, hna]

/-- C7 (counterexample): the cached key `mp:attachments/x?ex=0` decodes to
expiry 0, which is within one hour of any `now`, yet the resolve issues *no*
renew call and returns the key unchanged: the JS guard
`expiryTimeMs && ...` treats a zero expiry as falsy and skips renewal. -/
theorem renewal_zero_expiry_counterexample :
    getExpiryTime "mp:attachments/x?ex=0" = some 0 ∧
    (0 : Nat) < 0 + 3600000 ∧
    (resolveImage svcRenewOk 0 1 c7State (some (.externalImage "u"))).calls = [] ∧
    (resolveImage svcRenewOk 0 1 c7State (some (.externalImage "u"))).result =
      some "mp:attachments/x?ex=0" := by decide

/-- C7 (amended): for a cached key whose decoded expiry `e` (ms) is more
than one hour in the future, the resolve returns the key unchanged with no
renew call; if `e` is *nonzero* and within one hour, exactly one renew call
is issued for the asset id, and on success the cache entry is overwritten
and the fresh key returned, while on failure the cache is untouched and the
stale key returned (the renew endpoint absorbs its own errors, returning
`undefined` rather than raising); a decoded expiry of exactly zero is falsy
in the JS guard and triggers no renewal. -/
theorem resolveImage_renewal (svc : ImageServiceOracle) (now fuel : Nat)
    (st : RpcState) (image : RpcImage) (ak : String) (e : Nat)
    (happ : sstartsWith (RpcImage.getCacheKey image) "app_asset:" = false)
    (hget : jget st.resolvedAssetsCache (RpcImage.getCacheKey image) = some ak)
    (hexp : getExpiryTime ak = some e) :
    (now + 3600000 < e →
      (resolveImage svc now (fuel + 1) st (some image)).result = some ak ∧
      (resolveImage svc now (fuel + 1) st (some image)).state = st ∧
      (resolveImage svc now (fuel + 1) st (some image)).calls = []) ∧
    (0 < e → e < now + 3600000 →
      (resolveImage svc now (fuel + 1) st (some image)).calls =
        [.renewCall (((jsSplit ak "mp:attachments/").drop 1).headD "")] ∧
      (∀ na, svc.renewImage (((jsSplit ak "mp:attachments/").drop 1).headD "") =
          some na →
        (resolveImage svc now (fuel + 1) st (some image)).result = some na ∧
        (resolveImage svc now (fuel + 1) st (some image)).state.resolvedAssetsCache =
          jset st.resolvedAssetsCache (RpcImage.getCacheKey image) na) ∧
      (svc.renewImage (((jsSplit ak "mp:attachments/").drop 1).headD "") = none →
        (resolveImage svc now (fuel + 1) st (some image)).result = some ak ∧
        (resolveImage svc now (fuel + 1) st (some image)).state = st)) := by
  rw [resolveImage_cached svc now fuel st image ak happ hget]
  constructor
  · intro hfar
    rw [renewAssetIfNeeded_far_expiry svc now st.resolvedAssetsCache
      (RpcImage.getCacheKey image) ak e hexp hfar]
    exact ⟨rfl, rfl, rfl⟩
  · intro h0 hnear
    obtain ⟨hsome, hnone⟩ := renewAssetIfNeeded_near_expiry svc now
      st.resolvedAssetsCache (RpcImage.getCacheKey image) ak e hexp h0 hnear
    refine ⟨?_, ?_, ?_⟩
    · cases hre : svc.renewImage (((jsSplit ak "mp:attachments/").drop 1).headD "") with
      | some na => rw [hsome na hre]
      | none => rw [hnone hre]
    · intro na hna
      rw [hsome na hna]
      exact ⟨rfl, rfl⟩
    · intro hna
      rw [hnone hna]
      exact ⟨rfl, rfl⟩

/-- C7 witness: a cached key expiring at hex 2 Unix seconds (long past, and
nonzero) is renewed with exactly one renew call, the cache overwritten and
the fresh key returned; the hypotheses hold by evaluation. -/
theorem resolveImage_renewal_witness :
    getExpiryTime "mp:attachments/a/b.png?ex=2" = some 2000 ∧
    (resolveImage svcRenewOk 0 1 c7bState (some (.externalImage "u"))).calls =
      [.renewCall "a/b.png?ex=2"] ∧
    (resolveImage svcRenewOk 0 1 c7bState (some (.externalImage "u"))).result =
      some "mp:attachments/renewed" :=
  ⟨by decide,
    ((resolveImage_renewal svcRenewOk 0 0 c7bState (.externalImage "u")
      "mp:attachments/a/b.png?ex=2" 2000 (by decide) (by decide) (by decide)).2
      (by decide) (by decide)).1,
    (((resolveImage_renewal svcRenewOk 0 0 c7bState (.externalImage "u")
      "mp:attachments/a/b.png?ex=2" 2000 (by decide) (by decide) (by decide)).2
      (by decide) (by decide)).2.1 "mp:attachments/renewed" (by decide)).1⟩

end Hieuxyz
